import Mathlib

/-!
Shallow embedding of the Klondike solitaire rules engine from
`src/variant/klondike.rs` (types from `src/common/game_state.rs`, card model
from the `common` card module, whose behaviour is pinned down by
`src/variant/klondike.rs`, `tests/variant/klondike.rs` and
`test-util/src/parse.rs`).

Modelling conventions:
- Rust `Vec` piles become Lean `List Card` with the head as the bottom of
  the pile and the last element as the top, matching `Vec` index order.
- Machine integers (`usize`) become `Nat`; subtraction that the Rust code
  performs only in contexts where it cannot underflow is Nat subtraction,
  and every Rust panic site (slice indexing out of bounds, `unwrap`,
  debug-mode underflow) is modelled by returning `none` from an
  `Option`-valued function.
- The `f64` triangular-root computation in `deal_one` is modelled exactly
  over `Nat`: for the in-range arguments (x between 1 and 28) the `f64`
  square root of `8*x+1` (at most 225) is exact for perfect squares and
  never rounds to an integer otherwise, so `is_new_row` holds iff `8*x+1`
  is a perfect square, and trunc/ceil of the root coincide with the
  integer floor/ceiling used here.
-/

namespace Solitaire

/-- The color of a `FrenchSuit` (`common` card module). -/
inductive Color where
  | black
  | red
deriving DecidableEq, Repr

/-- `Color::opposite` (`common` card module). -/
def Color.opposite : Color → Color
  | .black => .red
  | .red => .black

/-- `FrenchSuit`: Clubs, Spades, Hearts and Diamonds (`common` card module). -/
inductive FrenchSuit where
  | clubs
  | spades
  | hearts
  | diamonds
deriving DecidableEq, Repr, Inhabited

/-- `FrenchSuit::color` (`common` card module). -/
def FrenchSuit.color : FrenchSuit → Color
  | .clubs => .black
  | .spades => .black
  | .hearts => .red
  | .diamonds => .red

/-- `Rank`: King, Queen, ..., Two, Ace, in the declaration order of the Rust
enum (the order in which cards stack in the tableau, King first). -/
inductive Rank where
  | king
  | queen
  | jack
  | ten
  | nine
  | eight
  | seven
  | six
  | five
  | four
  | three
  | two
  | ace
deriving DecidableEq, Repr, Inhabited

/-- Index of a rank in the Rust enum declaration order; the derived Rust
`Ord` on `Rank` compares these indices. -/
def Rank.idx : Rank → Nat
  | .king => 0
  | .queen => 1
  | .jack => 2
  | .ten => 3
  | .nine => 4
  | .eight => 5
  | .seven => 6
  | .six => 7
  | .five => 8
  | .four => 9
  | .three => 10
  | .two => 11
  | .ace => 12

/-- The derived Rust `<=` on `Rank` (declaration order, King least). -/
def rankLe (a b : Rank) : Bool := Nat.ble a.idx b.idx

/-- `Rank::next`: the successor in declaration order (King -> Queen -> ... ->
Two -> Ace -> none). -/
def Rank.next : Rank → Option Rank
  | .king => some .queen
  | .queen => some .jack
  | .jack => some .ten
  | .ten => some .nine
  | .nine => some .eight
  | .eight => some .seven
  | .seven => some .six
  | .six => some .five
  | .five => some .four
  | .four => some .three
  | .three => some .two
  | .two => some .ace
  | .ace => none

/-- `Rank::prev`: the predecessor in declaration order (Ace -> Two -> ... ->
Queen -> King -> none). -/
def Rank.prev : Rank → Option Rank
  | .king => none
  | .queen => some .king
  | .jack => some .queen
  | .ten => some .jack
  | .nine => some .ten
  | .eight => some .nine
  | .seven => some .eight
  | .six => some .seven
  | .five => some .six
  | .four => some .five
  | .three => some .four
  | .two => some .three
  | .ace => some .two

/-- `common::Card`: a suit, a rank and a face-up flag. -/
structure Card where
  suit : FrenchSuit
  rank : Rank
  face_up : Bool
deriving DecidableEq, Repr, Inhabited

/-- A pile ("Stack") of cards; the last element is the top. -/
abbrev Pile := List Card

/-- `FrenchSuit::VALUES`. -/
def FrenchSuit.values : List FrenchSuit := [.clubs, .spades, .hearts, .diamonds]

/-- `Rank::VALUES`. -/
def Rank.values : List Rank :=
  [.king, .queen, .jack, .ten, .nine, .eight, .seven, .six, .five, .four,
   .three, .two, .ace]

/-- `Card::new_deck`: the canonical 52-card deck in suit-major, rank-minor
order, face down. -/
def new_deck : List Card :=
  FrenchSuit.values.flatMap fun s => Rank.values.map fun r => ⟨s, r, false⟩

/-- `common::PileRef` from `src/common/game_state.rs`. -/
inductive PileRef where
  | tableau (n : Nat)
  | foundation (n : Nat)
  | stock
  | talon
deriving DecidableEq, Repr, Inhabited

/-- Whether a pile reference is a `Foundation`. -/
def PileRef.isFoundation : PileRef → Bool
  | .foundation _ => true
  | _ => false

/-- `Error` from `src/game_state.rs`. -/
inductive Error where
  | invalidInput (field : String) (reason : String)
  | invalidMove (reason : String)
  | unknown
deriving DecidableEq, Repr

/-- `InitialGameState`: the partially dealt tableau and the stock. -/
structure InitialGameState where
  tableau : List Pile
  stock : Pile
deriving DecidableEq, Repr

/-- `PlayingGameState`: tableau, foundations, stock and talon. -/
structure PlayingGameState where
  tableau : List Pile
  foundations : List Pile
  stock : Pile
  talon : Pile
deriving DecidableEq, Repr

/-- `WinGameState`: just the foundations. -/
structure WinGameState where
  foundations : List Pile
deriving DecidableEq, Repr

/-- `DealResult`: the result of a single deal. -/
inductive DealResult where
  | dealing (s : InitialGameState)
  | complete (s : PlayingGameState)
deriving DecidableEq, Repr

/-- `MoveResult`: the result of a move. -/
inductive MoveResult where
  | playing (s : PlayingGameState)
  | win (s : WinGameState)
deriving DecidableEq, Repr

/-- `GameState::get_stack` for `PlayingGameState`
(`src/common/game_state.rs`): `Vec::get`-style lookup, `none` when the
referenced pile does not exist. -/
def PlayingGameState.get_stack (s : PlayingGameState) : PileRef → Option Pile
  | .tableau n => s.tableau[n]?
  | .foundation n => s.foundations[n]?
  | .stock => some s.stock
  | .talon => some s.talon

/-- `*state.get_stack_mut(p).unwrap() = v` on a `PlayingGameState`: replace
the referenced pile (callers only do this after `get_stack` succeeded, so
the out-of-range no-op of `List.set` is never exercised). -/
def PlayingGameState.set_stack (s : PlayingGameState) (p : PileRef) (v : Pile) :
    PlayingGameState :=
  match p with
  | .tableau n => { s with tableau := s.tableau.set n v }
  | .foundation n => { s with foundations := s.foundations.set n v }
  | .stock => { s with stock := v }
  | .talon => { s with talon := v }

/-- `NUM_TABLEAU * (NUM_TABLEAU + 1) / 2 = 28` cards are dealt in total
(`GameRules::DEAL_N`). -/
def DEAL_N : Nat := 7 * (7 + 1) / 2

/-- The integer square root (largest `m` with `m * m ≤ n`), by exhaustive
search so that it reduces in the kernel; it is only ever applied to
numbers at most `8 * 28 + 1 = 225`. -/
def intSqrt (n : Nat) : Nat :=
  ((List.range (n + 1)).filter fun m => m * m ≤ n).length - 1

/-- The triangular-number arithmetic of `GameRules::deal_one`, as a function
of `drawn` (the number of cards already dealt): returns the tableau index
the next card is pushed onto and the `is_new_row` flag that decides whether
it is dealt face up.  Mirrors the Rust `f64` computation exactly for the
in-range arguments `drawn < 28` (see the header comment): there the `f64`
square root of `8*x+1 ≤ 225` is exactly an integer iff `8*x+1` is a perfect
square, `trunc` of the real root is `(intSqrt (8*x+1) - 1) / 2` and `ceil`
adds one exactly when the root is not integral. -/
def dealPos (drawn : Nat) : Nat × Bool :=
  let card_triangle_num := DEAL_N - drawn
  let sq := intSqrt (8 * card_triangle_num + 1)
  let is_new_row := sq * sq == 8 * card_triangle_num + 1
  let card_root_trunc := (sq - 1) / 2
  let row_triangle_num :=
    if is_new_row then card_triangle_num
    else (card_root_trunc + 1) * (card_root_trunc + 2) / 2
  let card_root_ceil := if is_new_row then card_root_trunc else card_root_trunc + 1
  ((7 - card_root_ceil) + row_triangle_num - card_triangle_num, is_new_row)

/-- `GameRules::deal_one`.  `none` models the Rust panics: `usize`
underflow in `Card::N - stock.len()` or `DEAL_N - drawn`, the
out-of-bounds tableau index reached when `drawn = 28`, and the `unwrap`
when popping an empty stock (all impossible on states reachable while
dealing). -/
def deal_one (s : InitialGameState) : Option DealResult :=
  if 52 < s.stock.length then none
  else
    let drawn := 52 - s.stock.length
    if 28 ≤ drawn then none
    else
      let pos := dealPos drawn
      match s.stock.getLast? with
      | none => none
      | some c =>
        let stock' := s.stock.dropLast
        let c' := if pos.2 then { c with face_up := true } else c
        if pos.1 < s.tableau.length then
          let tableau' := s.tableau.set pos.1 (s.tableau.getD pos.1 [] ++ [c'])
          if 28 ≤ 52 - stock'.length then
            some (.complete ⟨tableau', List.replicate 4 [], stock', []⟩)
          else
            some (.dealing ⟨tableau', stock'⟩)
        else none

/-- The `loop { match Self::deal_one(state) ... }` branch of
`GameRules::deal_all`, with explicit fuel (the Rust loop has none; with
fuel at least 28 the two agree on every state on which the Rust loop
terminates without panicking). -/
def deal_one_loop : Nat → InitialGameState → Option PlayingGameState
  | 0, _ => none
  | fuel + 1, s =>
    match deal_one s with
    | none => none
    | some (.dealing s') => deal_one_loop fuel s'
    | some (.complete p) => some p

/-- The inner `for j in i..NUM_TABLEAU` loop of the nested branch of
`GameRules::deal_all`: starting at pile `j`, `n` times pop the top of the
stock and push it (face flag unchanged) onto successive piles.  `none`
models the `take_one_vec_mut` unwrap panic on an empty stock. -/
def deal_inner (j : Nat) : Nat → List Pile × Pile → Option (List Pile × Pile)
  | 0, a => some a
  | n + 1, a =>
    match a.2.getLast? with
    | none => none
    | some c =>
      deal_inner (j + 1) n (a.1.set j (a.1.getD j [] ++ [c]), a.2.dropLast)

/-- The outer `for i in 0..NUM_TABLEAU` loop of the nested branch of
`GameRules::deal_all`: run the inner loop for round `i`, then mark the last
card of pile `i` face up (`last_mut().unwrap()`; `none` models the panic on
an empty pile). -/
def deal_outer (i : Nat) : Nat → List Pile × Pile → Option (List Pile × Pile)
  | 0, a => some a
  | n + 1, a =>
    match deal_inner i (7 - i) a with
    | none => none
    | some a' =>
      match (a'.1.getD i []).getLast? with
      | none => none
      | some c =>
        deal_outer (i + 1) n
          (a'.1.set i ((a'.1.getD i []).dropLast ++ [{ c with face_up := true }]),
           a'.2)

/-- `GameRules::deal_all`: the nested-loop construction when no card has
been dealt yet, otherwise `deal_one` in a loop.  `none` models the Rust
panics (`usize` underflow when the stock holds more than 52 cards, and any
panic inside the loops). -/
def deal_all (s : InitialGameState) : Option PlayingGameState :=
  if 52 < s.stock.length then none
  else if 52 - s.stock.length = 0 then
    match deal_outer 0 7 (List.replicate 7 [], s.stock) with
    | none => none
    | some (tableau, stock) =>
      some ⟨tableau, List.replicate 4 [], stock, []⟩
  else deal_one_loop 52 s

/-- `GameRules::draw_stock`. -/
def draw_stock (s : PlayingGameState) (n : Nat) : Except Error PlayingGameState :=
  match s.stock.length with
  | 0 =>
    -- Empty stock: swap stock and talon, mark the new stock face down and
    -- reverse it.
    .ok { s with
            stock := (s.talon.map fun c => { c with face_up := false }).reverse,
            talon := [] }
  | len =>
    let n := min n len
    let take := (s.stock.drop (len - n)).map fun c => { c with face_up := true }
    .ok { s with stock := s.stock.take (len - n), talon := s.talon ++ take }

/-- The adjacent-pair walk of `GameRules::valid_seq` for a tableau pile:
each later card must have the opposite color and the successor rank
(King to Ace descending run, bottom to top). -/
def tableauChain : Card → List Card → Bool
  | _, [] => true
  | prev, c :: cs =>
    if c.suit.color == prev.suit.color then false
    else if prev.rank.next != some c.rank then false
    else tableauChain c cs

/-- The adjacent-pair walk of `GameRules::valid_seq` for a foundation pile:
same suit, predecessor rank (Ace to King ascending run, bottom to top). -/
def foundationChain : Card → List Card → Bool
  | _, [] => true
  | prev, c :: cs =>
    if c.suit != prev.suit then false
    else if prev.rank.prev != some c.rank then false
    else foundationChain c cs

/-- `GameRules::valid_seq`.  `none` models the panic of the unconditional
`&cs[0]` read for tableau and foundation piles when the slice is empty. -/
def valid_seq (p : PileRef) (cs : List Card) : Option Bool :=
  if cs.any fun c => !c.face_up then some false
  else
    match p with
    | .tableau _ =>
      match cs with
      | [] => none
      | c :: rest => some (tableauChain c rest)
    | .foundation _ =>
      match cs with
      | [] => none
      | c :: rest => some (foundationChain c rest)
    | .stock => some false
    | .talon => some true

/-- `GameRules::move_cards`.  The outer `Option` models the (unreachable)
panic inside `valid_seq`; reachable outcomes are `some (.error e)` and
`some (.ok r)`. -/
def move_cards (state : PlayingGameState) (src : PileRef) (take_n : Nat)
    (dst : PileRef) : Option (Except Error MoveResult) :=
  if take_n = 0 then
    some (.error (.invalidInput "take_n" "cannot take 0 cards"))
  -- Validate src (Stock is rejected; Talon additionally requires take_n = 1)
  else if src = .stock then
    some (.error (.invalidInput "src" "cannot move cards from stock"))
  else if src = .talon ∧ take_n ≠ 1 then
    some (.error (.invalidInput "take_n" "cannot move more than 1 card from talon"))
  -- Validate dst (Stock and Talon are rejected; Foundation requires take_n = 1)
  else if dst = .stock then
    some (.error (.invalidInput "dst" "cannot move cards to stock"))
  else if dst = .talon then
    some (.error (.invalidInput "dst" "cannot move cards to talon"))
  else if dst.isFoundation ∧ take_n ≠ 1 then
    some (.error (.invalidInput "take_n" "cannot move more than 1 card to foundation"))
  -- Source == destination is a no-op
  else if src = dst then some (.ok (.playing state))
  else
    match state.get_stack src with
    | none => some (.error (.invalidInput "src" "pile does not exist"))
    | some src_stack =>
      if src_stack.length < take_n then
        some (.error (.invalidInput "take_n" "not enough cards in src pile"))
      else
        let rest := src_stack.take (src_stack.length - take_n)
        let take := src_stack.drop (src_stack.length - take_n)
        match valid_seq src take with
        | none => none
        | some false => some (.error (.invalidMove "src sequence is invalid"))
        | some true =>
          let new_src_stack :=
            match rest.getLast? with
            | some c => rest.dropLast ++ [{ c with face_up := true }]
            | none => rest
          match state.get_stack dst with
          | none => some (.error (.invalidInput "dst" "pile does not exist"))
          | some dst_stack =>
            let new_dst_stack := dst_stack ++ take
            let finish : Option (Except Error MoveResult) :=
              let new_state :=
                (state.set_stack src new_src_stack).set_stack dst new_dst_stack
              match dst with
              | .foundation _ =>
                if new_state.foundations.all fun f => 13 ≤ f.length then
                  some (.ok (.win ⟨new_state.foundations⟩))
                else some (.ok (.playing new_state))
              | _ => some (.ok (.playing new_state))
            if dst_stack.isEmpty then
              match dst with
              | .tableau _ =>
                if (take.headD default).rank ≠ .king then
                  some (.error (.invalidMove "can only move a King to a space"))
                else finish
              | .foundation _ =>
                if (take.headD default).rank ≠ .ace then
                  some (.error (.invalidMove "dst sequence is invalid"))
                else finish
              | _ => finish
            else
              match
                valid_seq dst
                  ((new_dst_stack.drop (new_dst_stack.length - take_n - 1)).take 2)
              with
              | none => none
              | some false => some (.error (.invalidMove "dst sequence is invalid"))
              | some true => finish

/-- The candidate-destination loop of `GameRules::auto_move_card`
(`try_move_cards` plus the two `for` loops): try each destination in order;
a success or an `InvalidInput` error stops the loop and is returned, any
other error tries the next candidate, and an exhausted list is the no-op
success.  The outer `Option` propagates the (unreachable) panic of
`move_cards`. -/
def try_move_list (state : PlayingGameState) (src : PileRef) (take_n : Nat) :
    List PileRef → Option (Except Error MoveResult)
  | [] => some (.ok (.playing state))
  | dst :: rest =>
    match move_cards state src take_n dst with
    | none => none
    | some (.ok r) => some (.ok r)
    | some (.error e) =>
      match e with
      | .invalidInput f m => some (.error (.invalidInput f m))
      | _ => try_move_list state src take_n rest

/-- The destination candidates of `GameRules::auto_move_card`: every
foundation (only when `take_n = 1`), then every tableau pile other than
`src`, in index order. -/
def autoCandidates (src : PileRef) (take_n : Nat) : List PileRef :=
  (if take_n = 1 then (List.range 4).map PileRef.foundation else []) ++
    ((List.range 7).map PileRef.tableau).filter fun d => d ≠ src

/-- `GameRules::auto_move_card`. -/
def auto_move_card (state : PlayingGameState) (src : PileRef) (take_n : Nat) :
    Option (Except Error MoveResult) :=
  match src with
  | .foundation _ => some (.ok (.playing state))
  | _ => try_move_list state src take_n (autoCandidates src take_n)

/-- The `for foundation in foundations` loop of
`GameRules::is_safe_to_move_to_foundation`: count the foundations whose top
card has the opposite color and has reached at least `prev_rank` (in the
tableau order `rankLe`, i.e. game rank at least the predecessor), returning
false as soon as an opposite-color top below `prev_rank` is seen; at the
end exactly two matches are required. -/
def oppositeMatches (card_to_move : Card) (prev_rank : Rank) :
    List Pile → Nat → Bool
  | [], n => n == 2
  | f :: fs, n =>
    match f.getLast? with
    | none => oppositeMatches card_to_move prev_rank fs n
    | some top =>
      if top.suit.color == card_to_move.suit.color.opposite then
        if rankLe top.rank prev_rank then
          oppositeMatches card_to_move prev_rank fs (n + 1)
        else false
      else oppositeMatches card_to_move prev_rank fs n

/-- The per-foundation condition counted by the loop of
`is_safe_to_move_to_foundation`: the top card exists, has the opposite
color, and has reached at least `prev_rank`. -/
def oppTopMatch (card_to_move : Card) (prev_rank : Rank) (f : Pile) : Bool :=
  match f.getLast? with
  | some t =>
    t.suit.color == card_to_move.suit.color.opposite && rankLe t.rank prev_rank
  | none => false

/-- `GameRules::is_safe_to_move_to_foundation`. -/
def is_safe_to_move_to_foundation (card_to_move : Card)
    (foundations : List Pile) : Bool :=
  match card_to_move.rank.next with
  | none => true
  | some prev_rank =>
    -- Find the foundation the card would be moved onto
    if foundations.any fun f =>
        match f.getLast? with
        | some c => c.suit == card_to_move.suit && c.rank == prev_rank
        | none => false
    then
      if card_to_move.rank == .two then true
      else oppositeMatches card_to_move prev_rank foundations 0
    else false

/-- The pile scan of `GameRules::auto_move_to_foundation`: talon first,
then the tableau piles left to right; the first pile whose (existing) top
card is safe is auto-moved with `take_n = 1`.  `none` models the two
`unwrap` panics (a pile reference that does not exist, and an error from
`auto_move_card`), both unreachable on well-formed states. -/
def auto_to_foundation_scan (state : PlayingGameState) :
    List PileRef → Option MoveResult
  | [] => some (.playing state)
  | p :: rest =>
    match state.get_stack p with
    | none => none
    | some stack =>
      match stack.getLast? with
      | none => auto_to_foundation_scan state rest
      | some c =>
        if is_safe_to_move_to_foundation c state.foundations then
          match auto_move_card state p 1 with
          | some (.ok r) => some r
          | _ => none
        else auto_to_foundation_scan state rest

/-- `GameRules::auto_move_to_foundation`. -/
def auto_move_to_foundation (state : PlayingGameState) : Option MoveResult :=
  auto_to_foundation_scan state
    (PileRef.talon :: (List.range 7).map PileRef.tableau)

/-! ## Card multisets

The conserved quantity of claim C1: the multiset of `(suit, rank)` pairs
across all reachable piles, ignoring the face-up flag. -/

/-- A card without its face-up flag. -/
def Card.strip (c : Card) : FrenchSuit × Rank := (c.suit, c.rank)

/-- The multiset of stripped cards of one pile. -/
def bagOf (l : Pile) : Multiset (FrenchSuit × Rank) := (l.map Card.strip : List _)

/-- The multiset of stripped cards over a list of piles. -/
def bagOfPiles (ls : List Pile) : Multiset (FrenchSuit × Rank) :=
  (ls.map bagOf).sum

/-- All cards reachable in an `InitialGameState` (tableau and stock). -/
def InitialGameState.bag (s : InitialGameState) : Multiset (FrenchSuit × Rank) :=
  bagOfPiles s.tableau + bagOf s.stock

/-- All cards reachable in a `PlayingGameState`. -/
def PlayingGameState.bag (s : PlayingGameState) : Multiset (FrenchSuit × Rank) :=
  bagOfPiles s.tableau + bagOfPiles s.foundations + bagOf s.stock + bagOf s.talon

/-- All cards reachable in a `WinGameState` (the foundations only). -/
def WinGameState.bag (s : WinGameState) : Multiset (FrenchSuit × Rank) :=
  bagOfPiles s.foundations

/-- The reachable cards of a `DealResult`. -/
def DealResult.bag : DealResult → Multiset (FrenchSuit × Rank)
  | .dealing s => s.bag
  | .complete s => s.bag

/-- The reachable cards of a `MoveResult`. -/
def MoveResult.bag : MoveResult → Multiset (FrenchSuit × Rank)
  | .playing s => s.bag
  | .win s => s.bag

/-- The full 52-card multiset. -/
def fullDeckBag : Multiset (FrenchSuit × Rank) := bagOf new_deck

/-- Type-level well-formedness of a `PlayingGameState` that the Rust arrays
`[Stack; NUM_TABLEAU]` and `[Stack; NUM_FOUNDATIONS]` enforce: seven
tableau piles and four foundations. -/
def PlayingGameState.WF (s : PlayingGameState) : Prop :=
  s.tableau.length = 7 ∧ s.foundations.length = 4

/-! ## Dealing: closed-form description

`stamp s k` is the `k`-th card dealt from a stock `s` of 52 cards (cards
are popped from the top, so card `k` is `s[51 - k]`), face up when the
triangle arithmetic says so; `pileSpec s d j` is tableau pile `j` after `d`
cards have been dealt. -/

/-- The `k`-th card dealt from stock `s`, with its dealt face flag. -/
def stamp (s : Pile) (k : Nat) : Card :=
  let c := s.getD (51 - k) default
  if (dealPos k).2 then { c with face_up := true } else c

/-- Tableau pile `j` after `d` cards have been dealt from stock `s`. -/
def pileSpec (s : Pile) (d : Nat) (j : Nat) : Pile :=
  ((List.range d).filter fun k => (dealPos k).1 == j).map (stamp s)

/-- The whole tableau after `d` cards have been dealt from stock `s`. -/
def tabSpec (s : Pile) (d : Nat) : List Pile :=
  (List.range 7).map (pileSpec s d)

/-- The first card index of dealing round `r` (round `r` deals one card
into each of piles `r..6`, so it has `7 - r` cards). -/
def roundStart (r : Nat) : Nat := 7 * r - r * (r - 1) / 2

/-- The dealing round of card index `d`. -/
def roundOf (d : Nat) : Nat :=
  ((List.range 7).filter fun r => roundStart r ≤ d).length - 1

/-- The tableau during the nested loops of `deal_all`: rounds `0..i-1` are
complete, and `t` cards of round `i` have been pushed (the first of them,
the card on pile `i`, still face down — its flag is fixed only after the
inner loop). -/
def midTab (s : Pile) (i t : Nat) : List Pile :=
  (List.range 7).map fun j =>
    if j < i then pileSpec s 28 j
    else if j = i ∧ 0 < t then
      pileSpec s (roundStart i) i ++ [s.getD (51 - roundStart i) default]
    else pileSpec s (roundStart i + t) j

/-- A concrete fresh game: empty tableau, canonical 52-card deck. -/
def freshGame : InitialGameState := ⟨List.replicate 7 [], new_deck⟩

/-- The canonical deck fully dealt (a concrete `PlayingGameState` holding
all 52 cards, used to instantiate universally quantified theorems). -/
def dealtGame : PlayingGameState :=
  (deal_all freshGame).getD ⟨[], [], [], []⟩

/-- A small concrete playing state: two stock cards, everything else empty
(the state of the repository's own `draw_stock` test). -/
def drawGame : PlayingGameState :=
  ⟨List.replicate 7 [], List.replicate 4 [],
   [⟨.clubs, .king, false⟩, ⟨.hearts, .ace, false⟩], []⟩

/-- A small concrete playing state: a lone face-up King on tableau pile 0,
tableau pile 1 empty. -/
def kingMoveGame : PlayingGameState :=
  ⟨[[⟨.clubs, .king, true⟩], [], [], [], [], [], []],
   List.replicate 4 [], [], []⟩

/-! ## List helper lemmas -/

theorem getLast?_take {α : Type} {l : List α} {m : Nat} (h1 : 1 ≤ m)
    (h2 : m ≤ l.length) : (l.take m).getLast? = l[m - 1]? := by
  rw [List.getLast?_eq_getElem?, List.length_take, List.getElem?_take]
  rw [if_pos (by omega)]
  congr 1
  omega

theorem dropLast_take {α : Type} {l : List α} {m : Nat} (h2 : m ≤ l.length) :
    (l.take m).dropLast = l.take (m - 1) := by
  rw [List.dropLast_eq_take, List.length_take, List.take_take]
  congr 1
  omega

theorem getElem?_eq_getD {α : Type} {l : List α} {n : Nat} (h : n < l.length)
    (dflt : α) : l[n]? = some (l.getD n dflt) := by
  rw [List.getD_eq_getElem?_getD, List.getElem?_eq_getElem h]
  rfl

theorem map_range_ext {α : Type} {n : Nat} {f g : Nat → α}
    (h : ∀ j, j < n → f j = g j) : (List.range n).map f = (List.range n).map g := by
  apply List.map_congr_left
  intro a ha
  exact h a (List.mem_range.mp ha)

theorem set_map_range {α : Type} {n i : Nat} {f : Nat → α} (v : α) (hi : i < n) :
    ((List.range n).map f).set i v =
      (List.range n).map fun j => if j = i then v else f j := by
  apply List.ext_getElem?
  intro j
  rw [List.getElem?_set]
  by_cases h : i = j
  · subst h
    rw [if_pos rfl, if_pos (by simpa using hi)]
    rw [List.getElem?_map, List.getElem?_range hi]
    simp
  · rw [if_neg h, List.getElem?_map, List.getElem?_map]
    by_cases hj : j < n
    · rw [List.getElem?_range hj]
      simp [Ne.symm h]
    · rw [List.getElem?_eq_none (l := List.range n)
        (by simpa using Nat.le_of_not_lt hj)]
      rfl

theorem getD_map_range {α : Type} {n j : Nat} {f : Nat → α} (hj : j < n)
    (dflt : α) : ((List.range n).map f).getD j dflt = f j := by
  rw [List.getD_eq_getElem?_getD, List.getElem?_map, List.getElem?_range hj]
  rfl

/-! ## The triangular dealing arithmetic -/

/-- For every in-range card index the computed tableau index is a valid
pile, and the face-up flag is set exactly at the card indices
0, 7, 13, 18, 22, 25, 27 (the first card of each round). -/
theorem dealPos_lt : ∀ d, d < 28 → (dealPos d).1 < 7 := by decide

/-- The whole tableau has seven piles. -/
theorem tabSpec_length (s : Pile) (d : Nat) : (tabSpec s d).length = 7 := by
  simp [tabSpec]

theorem tabSpec_getD (s : Pile) (d : Nat) {j : Nat} (hj : j < 7) :
    (tabSpec s d).getD j [] = pileSpec s d j :=
  getD_map_range hj []

theorem pileSpec_succ (s : Pile) (d j : Nat) :
    pileSpec s (d + 1) j =
      pileSpec s d j ++ if (dealPos d).1 = j then [stamp s d] else [] := by
  unfold pileSpec
  rw [List.range_succ, List.filter_append, List.map_append]
  congr 1
  by_cases h : (dealPos d).1 = j
  · have hb : ((dealPos d).1 == j) = true := by simpa using h
    simp [List.filter, hb, h]
  · have hb : ((dealPos d).1 == j) = false := by simpa using h
    simp [List.filter, hb, h]

theorem tabSpec_set (s : Pile) (d : Nat) (hd : (dealPos d).1 < 7) :
    (tabSpec s d).set (dealPos d).1 (pileSpec s d (dealPos d).1 ++ [stamp s d]) =
      tabSpec s (d + 1) := by
  unfold tabSpec
  rw [set_map_range _ hd]
  apply map_range_ext
  intro j hj
  rw [pileSpec_succ]
  by_cases h : j = (dealPos d).1
  · rw [if_pos h, if_pos h.symm, h]
  · rw [if_neg h, if_neg fun hc => h hc.symm, List.append_nil]

/-! ## The `deal_one` step on the closed-form states -/

/-- One `deal_one` step, on the state reached after `d` cards have been
dealt from a 52-card stock: it deals card `d` onto pile `(dealPos d).1`
with the face flag `(dealPos d).2`, and completes exactly when `d + 1 = 28`. -/
theorem deal_one_spec (s : Pile) (hs : s.length = 52) (d : Nat) (hd : d < 28) :
    deal_one ⟨tabSpec s d, s.take (52 - d)⟩ =
      some (if d + 1 = 28 then
              .complete ⟨tabSpec s (d + 1), List.replicate 4 [], s.take 24, []⟩
            else .dealing ⟨tabSpec s (d + 1), s.take (52 - (d + 1))⟩) := by
  have hlen : (s.take (52 - d)).length = 52 - d := by
    rw [List.length_take]
    omega
  have hdrawn : 52 - (s.take (52 - d)).length = d := by omega
  have hpop : (s.take (52 - d)).getLast? = some (s.getD (51 - d) default) := by
    rw [getLast?_take (by omega) (by omega)]
    rw [show 52 - d - 1 = 51 - d by omega]
    exact getElem?_eq_getD (by omega) default
  have hrest : (s.take (52 - d)).dropLast = s.take (52 - (d + 1)) := by
    rw [dropLast_take (by omega)]
    congr 1
  have hrestlen : (s.take (52 - (d + 1))).length = 52 - (d + 1) := by
    rw [List.length_take]
    omega
  unfold deal_one
  dsimp only
  rw [hlen, show 52 - (52 - d) = d from by omega,
    if_neg (show ¬ 52 < 52 - d by omega), if_neg (show ¬ 28 ≤ d by omega), hpop]
  dsimp only
  rw [hrest, hrestlen, tabSpec_length,
    show 52 - (52 - (d + 1)) = d + 1 from by omega,
    if_pos (dealPos_lt d hd), tabSpec_getD s d (dealPos_lt d hd),
    ← tabSpec_set s d (dealPos_lt d hd)]
  by_cases hlast : d + 1 = 28
  · rw [if_pos (by omega), if_pos hlast, hlast,
      show (52:Nat) - 28 = 24 from rfl]
    rfl
  · rw [if_neg (by omega), if_neg hlast]
    rfl

/-! ## Iterating `deal_one` -/

/-- Running the `deal_one` loop from the state after `d` cards: the
remaining `28 - d` steps reach the fully dealt state. -/
theorem deal_one_loop_run (s : Pile) (hs : s.length = 52) :
    ∀ fuel d, d < 28 → fuel = 28 - d →
      deal_one_loop fuel ⟨tabSpec s d, s.take (52 - d)⟩ =
        some ⟨tabSpec s 28, List.replicate 4 [], s.take 24, []⟩ := by
  intro fuel
  induction fuel with
  | zero => intro d hd hfuel; omega
  | succ fuel ih =>
    intro d hd hfuel
    rw [deal_one_loop, deal_one_spec s hs d hd]
    by_cases hlast : d + 1 = 28
    · rw [if_pos hlast, hlast]
    · rw [if_neg hlast]
      exact ih (d + 1) (by omega) (by omega)

/-- The empty initial tableau is the zero-cards closed form. -/
theorem tabSpec_zero (s : Pile) : tabSpec s 0 = List.replicate 7 [] := rfl

/-! ## The nested-loop branch of `deal_all` -/

/-- Decidable facts about the triangle arithmetic: within round `i`
(`i < 7`), the card at offset `t` lands on pile `i + t`, and is flagged as
a new row exactly at offset 0. -/
theorem dealPos_round :
    ∀ i, i < 7 → ∀ t, t < 7 - i →
      (dealPos (roundStart i + t)).1 = i + t ∧
        (dealPos (roundStart i + t)).2 = decide (t = 0) := by decide

theorem roundStart_succ : ∀ i, i < 7 → roundStart i + (7 - i) = roundStart (i + 1) := by
  decide

theorem roundStart_add_lt : ∀ i, i < 7 → ∀ t, t < 7 - i → roundStart i + t < 28 := by
  decide

/-- Pile `i` receives no card after round `i`: its card indices below 28
all lie below `roundStart i + 1`. -/
theorem filter_range_28 :
    ∀ i, i < 7 →
      ((List.range 28).filter fun k => (dealPos k).1 == i) =
        ((List.range (roundStart i + 1)).filter fun k => (dealPos k).1 == i) := by
  decide

theorem pileSpec_28 (s : Pile) {i : Nat} (hi : i < 7) :
    pileSpec s 28 i = pileSpec s (roundStart i + 1) i := by
  unfold pileSpec
  rw [filter_range_28 i hi]

/-- One push of the inner loop turns `midTab s i t` into `midTab s i (t+1)`. -/
theorem midTab_set (s : Pile) {i t : Nat} (hi : i < 7) (ht : t < 7 - i) :
    (midTab s i t).set (i + t)
        ((midTab s i t).getD (i + t) [] ++
          [s.getD (51 - (roundStart i + t)) default]) =
      midTab s i (t + 1) := by
  have hlt : i + t < 7 := by omega
  have hpos := dealPos_round i hi t ht
  unfold midTab
  rw [getD_map_range hlt, set_map_range _ hlt]
  apply map_range_ext
  intro j hj
  by_cases hjt : j = i + t
  · subst hjt
    rw [if_pos rfl]
    by_cases ht0 : t = 0
    · subst ht0
      rw [if_neg (by omega), if_neg (by simp), if_neg (by omega),
        if_pos ⟨by omega, by omega⟩]
      simp
    · rw [if_neg (by omega), if_neg (by omega), if_neg (by omega),
        if_neg (by simp; omega)]
      rw [show roundStart i + (t + 1) = (roundStart i + t) + 1 from rfl,
        pileSpec_succ, hpos.1, if_pos rfl]
      have hstamp : stamp s (roundStart i + t) = s.getD (51 - (roundStart i + t)) default := by
        unfold stamp
        rw [hpos.2]
        simp [ht0]
      rw [hstamp]
  · rw [if_neg hjt]
    by_cases hji : j < i
    · rw [if_pos hji, if_pos hji]
    · rw [if_neg hji, if_neg hji]
      by_cases hjeq : j = i ∧ 0 < t
      · rw [if_pos hjeq, if_pos ⟨hjeq.1, by omega⟩]
      · rw [if_neg hjeq, if_neg (by
          intro hc
          rcases hc with ⟨hc1, _⟩
          rcases Nat.eq_zero_or_pos t with ht0 | ht0
          · exact hjt (by omega)
          · exact hjeq ⟨hc1, ht0⟩)]
        rw [show roundStart i + (t + 1) = (roundStart i + t) + 1 from rfl,
          pileSpec_succ, hpos.1, if_neg fun hc => hjt hc.symm, List.append_nil]

/-- Running the whole inner loop of round `i` from offset `t`. -/
theorem deal_inner_run (s : Pile) (hs : s.length = 52) {i : Nat} (hi : i < 7) :
    ∀ n t, t + n = 7 - i →
      deal_inner (i + t) n (midTab s i t, s.take (52 - (roundStart i + t))) =
        some (midTab s i (7 - i), s.take (52 - roundStart (i + 1))) := by
  intro n
  induction n with
  | zero =>
    intro t ht
    have h1 : t = 7 - i := by omega
    subst h1
    rw [deal_inner, roundStart_succ i hi]
  | succ n ih =>
    intro t ht
    have hk : roundStart i + t < 28 := roundStart_add_lt i hi t (by omega)
    have hm1 : 1 ≤ 52 - (roundStart i + t) := by omega
    have hm2 : 52 - (roundStart i + t) ≤ s.length := by omega
    rw [deal_inner]
    rw [getLast?_take hm1 hm2,
      show 52 - (roundStart i + t) - 1 = 51 - (roundStart i + t) from by omega,
      getElem?_eq_getD (by omega) default]
    dsimp only
    rw [dropLast_take hm2, midTab_set s hi (by omega)]
    have harith : 52 - (roundStart i + t) - 1 = 52 - (roundStart i + (t + 1)) := by
      omega
    rw [harith, show i + t + 1 = i + (t + 1) from rfl]
    exact ih (t + 1) (by omega)

/-- Pile `i` of the nested loop, after the inner loop of round `i`. -/
theorem midTab_getD (s : Pile) {i : Nat} (hi : i < 7) :
    (midTab s i (7 - i)).getD i [] =
      pileSpec s (roundStart i) i ++ [s.getD (51 - roundStart i) default] := by
  unfold midTab
  rw [getD_map_range hi]
  rw [if_neg (by omega), if_pos ⟨rfl, by omega⟩]

/-- Fixing the face flag of the last card of pile `i` completes round `i`. -/
theorem midTab_fix (s : Pile) {i : Nat} (hi : i < 7) :
    (midTab s i (7 - i)).set i
        (pileSpec s (roundStart i) i ++
          [{ s.getD (51 - roundStart i) default with face_up := true }]) =
      midTab s (i + 1) 0 := by
  have hpos := dealPos_round i hi 0 (by omega)
  have hpos1 : (dealPos (roundStart i)).1 = i := by
    have := hpos.1
    simpa using this
  have hpos2 : (dealPos (roundStart i)).2 = true := by
    have := hpos.2
    simpa using this
  have hstamp : stamp s (roundStart i) =
      { s.getD (51 - roundStart i) default with face_up := true } := by
    unfold stamp
    rw [hpos2]
    simp
  unfold midTab
  rw [set_map_range _ hi]
  apply map_range_ext
  intro j hj
  by_cases hji : j = i
  · rw [if_pos hji, if_pos (by omega), hji]
    rw [pileSpec_28 s hi, pileSpec_succ, hpos1, if_pos rfl, hstamp]
  · rw [if_neg hji]
    by_cases hjlt : j < i
    · rw [if_pos hjlt, if_pos (by omega)]
    · rw [if_neg hjlt, if_neg (by intro hc; exact hji hc.1), if_neg (by omega),
        if_neg (by intro hc; omega), roundStart_succ i hi]
      rfl

/-- Running the outer loop from round `i` to the end. -/
theorem deal_outer_run (s : Pile) (hs : s.length = 52) :
    ∀ n i, i + n = 7 →
      deal_outer i n (midTab s i 0, s.take (52 - roundStart i)) =
        some (tabSpec s 28, s.take 24) := by
  intro n
  induction n with
  | zero =>
    intro i hin
    have h1 : i = 7 := by omega
    subst h1
    rw [deal_outer]
    have htab : midTab s 7 0 = tabSpec s 28 := by
      unfold midTab tabSpec
      apply map_range_ext
      intro j hj
      rw [if_pos hj]
    rw [htab, show roundStart 7 = 28 from rfl, show (52:Nat) - 28 = 24 from rfl]
  | succ n ih =>
    intro i hin
    have hi : i < 7 := by omega
    rw [deal_outer]
    have hinner := deal_inner_run s hs hi (7 - i) 0 (by omega)
    rw [show i + 0 = i from rfl, show roundStart i + 0 = roundStart i from rfl]
      at hinner
    rw [hinner]
    dsimp only
    rw [midTab_getD s hi, List.getLast?_concat]
    dsimp only
    rw [List.dropLast_concat, midTab_fix s hi]
    exact ih (i + 1) (by omega)

/-! ## `deal_all` and `deal_one` iteration agree on fresh states -/

/-- `deal_all` on a fresh (undealt, 52-card) state: the nested-loop branch
produces the closed-form dealt state. -/
theorem deal_all_fresh (s : InitialGameState)
    (htab : s.tableau = List.replicate 7 []) (hlen : s.stock.length = 52) :
    deal_all s =
      some ⟨tabSpec s.stock 28, List.replicate 4 [], s.stock.take 24, []⟩ := by
  unfold deal_all
  rw [if_neg (by omega), if_pos (by omega)]
  have houter := deal_outer_run s.stock hlen 7 0 (by omega)
  rw [show midTab s.stock 0 0 = List.replicate 7 [] from rfl,
    show (52:Nat) - roundStart 0 = 52 from rfl,
    List.take_of_length_le (by omega)] at houter
  rw [houter]

/-- Iterating `deal_one` 28 times on a fresh (undealt, 52-card) state
produces the same closed-form dealt state. -/
theorem deal_one_iter_fresh (s : InitialGameState)
    (htab : s.tableau = List.replicate 7 []) (hlen : s.stock.length = 52) :
    deal_one_loop 28 s =
      some ⟨tabSpec s.stock 28, List.replicate 4 [], s.stock.take 24, []⟩ := by
  have hrun := deal_one_loop_run s.stock hlen 28 0 (by omega) (by omega)
  rw [tabSpec_zero, show (52:Nat) - 0 = 52 from rfl,
    List.take_of_length_le (by omega)] at hrun
  have : s = ⟨s.tableau, s.stock⟩ := rfl
  rw [this, htab]
  exact hrun

/-! ## Shape of the dealt tableau -/

theorem pileSpec_28_length :
    ∀ j, j < 7 →
      ((List.range 28).filter fun k => (dealPos k).1 == j).length = j + 1 := by
  decide

/-- The card indices of pile `j` are nonempty, end with `roundStart j`, and
`roundStart j` is the only one dealt face up. -/
theorem filter_facts :
    ∀ j, j < 7 →
      ((List.range 28).filter fun k => (dealPos k).1 == j) ≠ [] ∧
        ((List.range 28).filter fun k => (dealPos k).1 == j).getLast? =
          some (roundStart j) ∧
        (dealPos (roundStart j)).2 = true ∧
        ∀ k ∈ ((List.range 28).filter fun k => (dealPos k).1 == j).dropLast,
          (dealPos k).2 = false ∧ k < 28 := by
  decide

/-- Depth `r` of pile `j` holds the card of round `r` (`r ≤ j < 7`). -/
theorem filter_getElem :
    ∀ j, j < 7 → ∀ r, r ≤ j →
      ((List.range 28).filter fun k => (dealPos k).1 == j)[r]? =
        some (roundStart r + (j - r)) := by
  decide

theorem roundStart_lt_28 : ∀ r, r < 7 → roundStart r < 28 := by decide

theorem getD_mem {α : Type} {l : List α} {n : Nat} (h : n < l.length) (d : α) :
    l.getD n d ∈ l := by
  rw [List.getD_eq_getElem?_getD, List.getElem?_eq_getElem h]
  exact List.getElem_mem h

theorem stamp_face_down (s : Pile) (hlen : s.length = 52)
    (hfd : ∀ c ∈ s, c.face_up = false) {k : Nat} (hk : k < 28)
    (hflag : (dealPos k).2 = false) : (stamp s k).face_up = false := by
  unfold stamp
  rw [hflag]
  exact hfd _ (getD_mem (by omega) default)

theorem stamp_face_up (s : Pile) {k : Nat} (hflag : (dealPos k).2 = true) :
    (stamp s k).face_up = true := by
  unfold stamp
  rw [hflag]
  simp

/-- Each dealt pile splits into face-down cards under a face-up top. -/
theorem pileSpec_split (s : Pile) (hlen : s.length = 52)
    (hfd : ∀ c ∈ s, c.face_up = false) {j : Nat} (hj : j < 7) :
    ∃ cs c, pileSpec s 28 j = cs ++ [c] ∧ c.face_up = true ∧
      ∀ x ∈ cs, x.face_up = false := by
  obtain ⟨hne, hlast, hflag, hdrop⟩ := filter_facts j hj
  set fl := (List.range 28).filter fun k => (dealPos k).1 == j with hfl
  refine ⟨(fl.dropLast).map (stamp s), stamp s (roundStart j), ?_, ?_, ?_⟩
  · unfold pileSpec
    rw [← hfl]
    conv_lhs => rw [← List.dropLast_append_getLast hne]
    rw [List.map_append]
    congr 1
    have : fl.getLast hne = roundStart j := by
      have := hlast
      rw [List.getLast?_eq_getLast fl hne] at this
      exact Option.some_injective _ this
    rw [this]
    rfl
  · exact stamp_face_up s hflag
  · intro x hx
    obtain ⟨k, hk, hxk⟩ := List.mem_map.mp hx
    obtain ⟨hkflag, hk28⟩ := hdrop k hk
    rw [← hxk]
    exact stamp_face_down s hlen hfd hk28 hkflag

/-- The dealt pile lengths are `j + 1`. -/
theorem pileSpec_28_len (s : Pile) {j : Nat} (hj : j < 7) :
    (pileSpec s 28 j).length = j + 1 := by
  unfold pileSpec
  rw [List.length_map]
  exact pileSpec_28_length j hj

/-- The total size of the dealt tableau is 28. -/
theorem tabSpec_total (s : Pile) : ((tabSpec s 28).map List.length).sum = 28 := by
  unfold tabSpec
  rw [List.map_map]
  have : (List.range 7).map (List.length ∘ pileSpec s 28) =
      (List.range 7).map fun j => j + 1 := by
    apply map_range_ext
    intro j hj
    exact pileSpec_28_len s hj
  rw [this]
  rfl

/-! ## Bag (card multiset) infrastructure -/

theorem bagOf_append (a b : Pile) : bagOf (a ++ b) = bagOf a + bagOf b := by
  unfold bagOf
  rw [List.map_append, ← Multiset.coe_add]

theorem card_bagOf (l : Pile) : Multiset.card (bagOf l) = l.length := by
  unfold bagOf
  rw [Multiset.coe_card, List.length_map]

theorem bagOfPiles_cons (p : Pile) (ps : List Pile) :
    bagOfPiles (p :: ps) = bagOf p + bagOfPiles ps := by
  unfold bagOfPiles
  rw [List.map_cons, List.sum_cons]

theorem card_bagOfPiles (ls : List Pile) :
    Multiset.card (bagOfPiles ls) = (ls.map List.length).sum := by
  induction ls with
  | nil => rfl
  | cons a ls ih =>
    rw [bagOfPiles_cons, Multiset.card_add, card_bagOf, List.map_cons,
      List.sum_cons, ih]

/-- Replacing pile `n` of a pile list, as a cancellation-free equation. -/
theorem bagOfPiles_set_add (v : Pile) :
    ∀ (ls : List Pile) (n : Nat), n < ls.length →
      bagOfPiles (ls.set n v) + bagOf (ls.getD n []) = bagOfPiles ls + bagOf v := by
  intro ls
  induction ls with
  | nil => intro n h; simp at h
  | cons a ls ih =>
    intro n hn
    cases n with
    | zero =>
      rw [List.set_cons_zero, List.getD_cons_zero, bagOfPiles_cons, bagOfPiles_cons]
      abel
    | succ n =>
      rw [List.set_cons_succ, List.getD_cons_succ, bagOfPiles_cons, bagOfPiles_cons,
        add_assoc, ih n (by simpa using Nat.lt_of_succ_lt_succ hn), add_assoc]

/-- Multiset cancellation. -/
theorem bag_cancel {a b c : Multiset (FrenchSuit × Rank)} (h : a + c = b + c) :
    a = b :=
  add_right_cancel h

/-- A single-card bag only depends on the stripped card. -/
theorem bagOf_single (c' c : Card) (h : Card.strip c' = Card.strip c) :
    bagOf [c'] = bagOf [c] := by
  unfold bagOf
  rw [show [c'].map Card.strip = [Card.strip c'] from rfl,
    show [c].map Card.strip = [Card.strip c] from rfl, h]

/-- Popping the top of a nonempty pile splits its bag. -/
theorem bagOf_pop {stock : Pile} {c : Card} (h : stock.getLast? = some c) :
    bagOf stock = bagOf stock.dropLast + bagOf [c] := by
  have hne : stock ≠ [] := by
    intro e
    rw [e] at h
    simp at h
  have hc : stock.getLast hne = c := by
    have := h
    rw [List.getLast?_eq_getLast stock hne] at this
    exact Option.some_injective _ this
  conv_lhs => rw [← List.dropLast_append_getLast hne, hc]
  rw [bagOf_append]

/-- The face-up fix of the remaining source pile does not change its bag. -/
theorem bagOf_fix_last (rest : Pile) :
    bagOf (match rest.getLast? with
           | some c => rest.dropLast ++ [{ c with face_up := true }]
           | none => rest) = bagOf rest := by
  match h : rest.getLast? with
  | none => rfl
  | some c =>
    show bagOf (rest.dropLast ++ [{ c with face_up := true }]) = bagOf rest
    rw [bagOf_append,
      bagOf_single { c with face_up := true } c rfl,
      ← bagOf_pop h]

/-- Popping a card off `stock` and pushing it (with any face flag) onto
pile `idx` preserves the total bag. -/
theorem push_pop_bag (tab : List Pile) {idx : Nat} (hidx : idx < tab.length)
    {stock : Pile} {c : Card} (c' : Card) (hc : stock.getLast? = some c)
    (hstrip : Card.strip c' = Card.strip c) :
    bagOfPiles (tab.set idx (tab.getD idx [] ++ [c'])) + bagOf stock.dropLast =
      bagOfPiles tab + bagOf stock := by
  have hset := bagOfPiles_set_add (tab.getD idx [] ++ [c']) tab idx hidx
  rw [bagOf_append, bagOf_single c' c hstrip] at hset
  apply bag_cancel (c := bagOf (tab.getD idx []) + bagOf [c])
  calc bagOfPiles (tab.set idx (tab.getD idx [] ++ [c'])) + bagOf stock.dropLast +
        (bagOf (tab.getD idx []) + bagOf [c])
      = (bagOfPiles (tab.set idx (tab.getD idx [] ++ [c'])) +
          bagOf (tab.getD idx [])) + (bagOf stock.dropLast + bagOf [c]) := by abel
    _ = (bagOfPiles tab + (bagOf (tab.getD idx []) + bagOf [c])) +
          (bagOf stock.dropLast + bagOf [c]) := by rw [hset]
    _ = (bagOfPiles tab + (bagOf stock.dropLast + bagOf [c])) +
          (bagOf (tab.getD idx []) + bagOf [c]) := by abel
    _ = bagOfPiles tab + bagOf stock + (bagOf (tab.getD idx []) + bagOf [c]) := by
          rw [← bagOf_pop hc]

/-! ## The dealt cards partition the top 28 cards of the stock -/

theorem sum_map_range_update {X : Type} {n i : Nat} (hi : i < n)
    (f : Nat → Multiset X) (a : Multiset X) :
    ((List.range n).map fun j => if j = i then a + f j else f j).sum =
      a + ((List.range n).map f).sum := by
  induction n with
  | zero => omega
  | succ n ih =>
    rw [List.range_succ, List.map_append, List.map_append, List.sum_append,
      List.sum_append]
    by_cases hin : i = n
    · subst hin
      have : ((List.range i).map fun j => if j = i then a + f j else f j) =
          (List.range i).map f := by
        apply map_range_ext
        intro j hj
        rw [if_neg (by omega)]
      rw [this]
      simp only [List.map_cons, List.map_nil, List.sum_cons, List.sum_nil,
        if_pos rfl]
      abel
    · rw [ih (by omega)]
      simp only [List.map_cons, List.map_nil, List.sum_cons, List.sum_nil]
      rw [if_neg fun hc => hin hc.symm]
      abel

/-- Distributing a list of card indices over the seven piles preserves the
bag of dealt cards. -/
theorem bag_filter_partition (s : Pile) :
    ∀ l : List Nat, (∀ k ∈ l, (dealPos k).1 < 7) →
      ((List.range 7).map fun j =>
          bagOf ((l.filter fun k => (dealPos k).1 == j).map (stamp s))).sum =
        bagOf (l.map (stamp s)) := by
  intro l
  induction l with
  | nil =>
    intro _
    have : ((List.range 7).map fun j =>
        bagOf (([] : List Nat).map (stamp s))) = (List.range 7).map fun _ => 0 := by
      apply map_range_ext
      intro j _
      rfl
    simp only [List.filter_nil]
    rw [this]
    rfl
  | cons k l ih =>
    intro hmem
    have hk := hmem k (List.mem_cons_self k l)
    have hrest : ∀ x ∈ l, (dealPos x).1 < 7 := fun x hx =>
      hmem x (List.mem_cons_of_mem k hx)
    have hstep : ((List.range 7).map fun j =>
        bagOf (((k :: l).filter fun x => (dealPos x).1 == j).map (stamp s))) =
        (List.range 7).map fun j =>
          if j = (dealPos k).1 then
            bagOf [stamp s k] + bagOf ((l.filter fun x => (dealPos x).1 == j).map (stamp s))
          else bagOf ((l.filter fun x => (dealPos x).1 == j).map (stamp s)) := by
      apply map_range_ext
      intro j hj
      by_cases hjk : j = (dealPos k).1
      · have hb : ((dealPos k).1 == j) = true := by simp [hjk]
        rw [List.filter_cons, if_pos hb, List.map_cons, if_pos hjk]
        rw [show (stamp s k :: (l.filter fun x => (dealPos x).1 == j).map (stamp s)) =
          [stamp s k] ++ (l.filter fun x => (dealPos x).1 == j).map (stamp s) from rfl]
        rw [bagOf_append]
      · have hb : ((dealPos k).1 == j) = false := by
          simp
          exact fun hc => hjk hc.symm
        rw [List.filter_cons, if_neg (by rw [hb]; exact Bool.false_ne_true),
          if_neg hjk]
    rw [hstep, sum_map_range_update hk _ (bagOf [stamp s k]), ih hrest,
      List.map_cons]
    rw [show (stamp s k :: l.map (stamp s)) = [stamp s k] ++ l.map (stamp s) from rfl]
    rw [bagOf_append]

/-- The indices 0..27 read the top 28 stock cards (in reverse order). -/
theorem range28_getD (s : Pile) (hs : s.length = 52) :
    ((List.range 28).map fun k => s.getD (51 - k) default) =
      (s.drop 24).reverse := by
  apply List.ext_getElem?
  intro i
  rw [List.getElem?_map]
  by_cases hi : i < 28
  · rw [List.getElem?_range hi, List.getElem?_reverse (by simp; omega)]
    rw [List.getElem?_drop]
    have : (s.drop 24).length - 1 - i = 27 - i := by simp; omega
    rw [this, show 24 + (27 - i) = 51 - i from by omega]
    show some (s.getD (51 - i) default) = s[51 - i]?
    exact (getElem?_eq_getD (by omega) default).symm
  · rw [List.getElem?_eq_none (l := List.range 28) (by simpa using Nat.le_of_not_lt hi),
      List.getElem?_eq_none (by simp; omega)]
    rfl

/-- The bag of the dealt tableau plus the remaining stock is the bag of the
original stock. -/
theorem tabSpec_bag (s : Pile) (hs : s.length = 52) :
    bagOfPiles (tabSpec s 28) + bagOf (s.take 24) = bagOf s := by
  have hpart := bag_filter_partition s (List.range 28)
    (fun k hk => dealPos_lt k (List.mem_range.mp hk))
  have htab : bagOfPiles (tabSpec s 28) =
      bagOf ((List.range 28).map (stamp s)) := by
    unfold bagOfPiles tabSpec
    rw [List.map_map]
    have : (List.range 7).map (bagOf ∘ pileSpec s 28) =
        (List.range 7).map fun j =>
          bagOf (((List.range 28).filter fun k => (dealPos k).1 == j).map (stamp s)) := by
      apply map_range_ext
      intro j hj
      rfl
    rw [this, hpart]
  have hmaps : ((List.range 28).map (stamp s)).map Card.strip =
      ((List.range 28).map fun k => s.getD (51 - k) default).map Card.strip := by
    rw [List.map_map, List.map_map]
    apply List.map_congr_left
    intro k _
    show Card.strip (stamp s k) = Card.strip (s.getD (51 - k) default)
    unfold stamp
    by_cases h : (dealPos k).2 <;> simp [h, Card.strip]
  have hstamp : bagOf ((List.range 28).map (stamp s)) =
      bagOf ((List.range 28).map fun k => s.getD (51 - k) default) := by
    unfold bagOf
    rw [hmaps]
  have hrev : bagOf ((s.drop 24).reverse) = bagOf (s.drop 24) := by
    unfold bagOf
    rw [List.map_reverse, Multiset.coe_reverse]
  rw [htab, hstamp, range28_getD s hs, hrev, add_comm, ← bagOf_append,
    List.take_append_drop]

/-! ## Conservation for the dealing operations -/

/-- `deal_one` never duplicates or loses a card. -/
theorem deal_one_bag (s : InitialGameState) (r : DealResult)
    (h : deal_one s = some r) : r.bag = s.bag := by
  unfold deal_one at h
  by_cases h52 : 52 < s.stock.length
  · rw [if_pos h52] at h
    exact absurd h (by simp)
  rw [if_neg h52] at h
  dsimp only at h
  by_cases h28 : 28 ≤ 52 - s.stock.length
  · rw [if_pos h28] at h
    exact absurd h (by simp)
  rw [if_neg h28] at h
  match heq : s.stock.getLast? with
  | none =>
    rw [heq] at h
    exact absurd h (by simp)
  | some c =>
    rw [heq] at h
    dsimp only at h
    by_cases hidx : (dealPos (52 - s.stock.length)).1 < s.tableau.length
    · rw [if_pos hidx] at h
      have hpush := push_pop_bag s.tableau hidx
        (if (dealPos (52 - s.stock.length)).2 then { c with face_up := true } else c)
        heq (by by_cases hflag : (dealPos (52 - s.stock.length)).2 <;> simp [hflag, Card.strip])
      by_cases hcomp : 28 ≤ 52 - s.stock.dropLast.length
      · rw [if_pos hcomp] at h
        injection h with h
        subst h
        unfold DealResult.bag PlayingGameState.bag InitialGameState.bag
        dsimp only
        rw [show bagOfPiles (List.replicate 4 []) = (0 : Multiset _) from rfl,
          show bagOf [] = (0 : Multiset _) from rfl, add_zero, add_zero]
        exact hpush
      · rw [if_neg hcomp] at h
        injection h with h
        subst h
        unfold DealResult.bag InitialGameState.bag
        dsimp only
        exact hpush
    · rw [if_neg hidx] at h
      exact absurd h (by simp)

/-- The `deal_one` loop never duplicates or loses a card. -/
theorem deal_one_loop_bag :
    ∀ (fuel : Nat) (s : InitialGameState) (p : PlayingGameState),
      deal_one_loop fuel s = some p → p.bag = s.bag := by
  intro fuel
  induction fuel with
  | zero =>
    intro s p h
    exact absurd h (by simp [deal_one_loop])
  | succ fuel ih =>
    intro s p h
    rw [deal_one_loop] at h
    match hd : deal_one s with
    | none =>
      rw [hd] at h
      exact absurd h (by simp)
    | some (.dealing s') =>
      rw [hd] at h
      calc p.bag = s'.bag := ih s' p h
        _ = s.bag := deal_one_bag s _ hd
    | some (.complete q) =>
      rw [hd] at h
      injection h with h
      subst h
      exact deal_one_bag s _ hd

/-- `Multiset.card fullDeckBag = 52`. -/
theorem card_fullDeckBag : Multiset.card fullDeckBag = 52 := by decide

/-- `deal_all` never duplicates or loses a card (on 52-card states). -/
theorem deal_all_bag (s : InitialGameState) (p : PlayingGameState)
    (hbag : s.bag = fullDeckBag) (h : deal_all s = some p) :
    p.bag = fullDeckBag := by
  unfold deal_all at h
  by_cases h52 : 52 < s.stock.length
  · rw [if_pos h52] at h
    exact absurd h (by simp)
  rw [if_neg h52] at h
  by_cases h0 : 52 - s.stock.length = 0
  · rw [if_pos h0] at h
    have hlen : s.stock.length = 52 := by omega
    have houter := deal_outer_run s.stock hlen 7 0 (by omega)
    rw [show midTab s.stock 0 0 = List.replicate 7 [] from rfl,
      show (52:Nat) - roundStart 0 = 52 from rfl,
      List.take_of_length_le (by omega)] at houter
    rw [houter] at h
    injection h with h
    subst h
    have htb : bagOfPiles s.tableau = 0 := by
      have hcard := congrArg Multiset.card hbag
      rw [card_fullDeckBag] at hcard
      unfold InitialGameState.bag at hcard
      rw [Multiset.card_add, card_bagOf, hlen] at hcard
      exact Multiset.card_eq_zero.mp (by omega)
    unfold PlayingGameState.bag
    dsimp only
    rw [show bagOfPiles (List.replicate 4 []) = (0 : Multiset _) from rfl,
      show bagOf ([] : Pile) = (0 : Multiset _) from rfl, add_zero, add_zero,
      tabSpec_bag s.stock hlen, ← hbag]
    unfold InitialGameState.bag
    rw [htb, zero_add]
  · rw [if_neg h0] at h
    rw [deal_one_loop_bag 52 s p h, hbag]

/-! ## Claim C7: `draw_stock` -/

/-- **C7**: for every `PlayingGameState` and every `n`, `draw_stock` never
returns an error.  When the stock is non-empty it moves `min n (stock
length)` cards from the top of the stock onto the top of the talon, marked
face up, leaving all other piles unchanged; when the stock is empty it
recycles: the new stock is the old talon reversed with every card marked
face down, and the new talon is empty. -/
theorem C7_draw_stock (s : PlayingGameState) (n : Nat) :
    (∃ s', draw_stock s n = .ok s') ∧
    (s.stock ≠ [] →
      draw_stock s n = .ok { s with
        stock := s.stock.take (s.stock.length - min n s.stock.length),
        talon := s.talon ++
          (s.stock.drop (s.stock.length - min n s.stock.length)).map
            fun c => { c with face_up := true } }) ∧
    (s.stock = [] →
      draw_stock s n = .ok { s with
        stock := (s.talon.map fun c => { c with face_up := false }).reverse,
        talon := [] }) := by
  refine ⟨?_, ?_, ?_⟩
  · unfold draw_stock
    match s.stock.length with
    | 0 => exact ⟨_, rfl⟩
    | m + 1 => exact ⟨_, rfl⟩
  · intro hne
    have hlen : s.stock.length ≠ 0 := by simpa using hne
    unfold draw_stock
    match hl : s.stock.length with
    | 0 => exact absurd hl hlen
    | m + 1 => rfl
  · intro hnil
    have hlen : s.stock.length = 0 := by simp [hnil]
    unfold draw_stock
    match hl : s.stock.length with
    | 0 => rfl
    | m + 1 => omega

/-- Witness for C7: drawing one card from the two-card stock. -/
theorem C7_draw_stock_witness :
    draw_stock drawGame 1 = .ok
      { drawGame with
        stock := [⟨.clubs, .king, false⟩], talon := [⟨.hearts, .ace, true⟩] } :=
  (C7_draw_stock drawGame 1).2.1 (by decide)

/-- `draw_stock` never duplicates or loses a card. -/
theorem draw_stock_bag (s : PlayingGameState) (n : Nat) (s' : PlayingGameState)
    (h : draw_stock s n = .ok s') : s'.bag = s.bag := by
  unfold draw_stock at h
  match hl : s.stock.length with
  | 0 =>
    rw [hl] at h
    injection h with h
    subst h
    have hnil : s.stock = [] := List.length_eq_zero.mp hl
    unfold PlayingGameState.bag
    dsimp only
    rw [hnil]
    have hmap : bagOf ((s.talon.map fun c => { c with face_up := false }).reverse) =
        bagOf s.talon := by
      unfold bagOf
      rw [List.map_reverse, Multiset.coe_reverse, List.map_map]
      have : s.talon.map (Card.strip ∘ fun c => { c with face_up := false }) =
          s.talon.map Card.strip := by
        apply List.map_congr_left
        intro c _
        rfl
      rw [this]
    rw [hmap]
    abel
  | m + 1 =>
    rw [hl] at h
    injection h with h
    subst h
    unfold PlayingGameState.bag
    dsimp only
    have htk : bagOf (s.stock.take (m + 1 - min n (m + 1))) +
        bagOf ((s.stock.drop (m + 1 - min n (m + 1))).map
          fun c => { c with face_up := true }) = bagOf s.stock := by
      have hmap : bagOf ((s.stock.drop (m + 1 - min n (m + 1))).map
          fun c => { c with face_up := true }) =
          bagOf (s.stock.drop (m + 1 - min n (m + 1))) := by
        unfold bagOf
        rw [List.map_map]
        have : (s.stock.drop (m + 1 - min n (m + 1))).map
            (Card.strip ∘ fun c => { c with face_up := true }) =
            (s.stock.drop (m + 1 - min n (m + 1))).map Card.strip := by
          apply List.map_congr_left
          intro c _
          rfl
        rw [this]
      rw [hmap, ← bagOf_append, List.take_append_drop]
    rw [bagOf_append]
    calc bagOfPiles s.tableau + bagOfPiles s.foundations +
          bagOf (s.stock.take (m + 1 - min n (m + 1))) +
          (bagOf s.talon + bagOf ((s.stock.drop (m + 1 - min n (m + 1))).map
            fun c => { c with face_up := true }))
        = bagOfPiles s.tableau + bagOfPiles s.foundations +
          (bagOf (s.stock.take (m + 1 - min n (m + 1))) +
            bagOf ((s.stock.drop (m + 1 - min n (m + 1))).map
              fun c => { c with face_up := true })) + bagOf s.talon := by abel
      _ = bagOfPiles s.tableau + bagOfPiles s.foundations + bagOf s.stock +
          bagOf s.talon := by rw [htk]

/-! ## Analysis of `move_cards` -/

theorem valid_seq_some (p : PileRef) (cs : List Card) (h : cs ≠ []) :
    ∃ b, valid_seq p cs = some b := by
  unfold valid_seq
  by_cases hface : cs.any fun c => !c.face_up
  · rw [if_pos hface]
    exact ⟨false, rfl⟩
  · rw [if_neg hface]
    match p, cs with
    | .tableau i, c :: rest => exact ⟨_, rfl⟩
    | .foundation i, c :: rest => exact ⟨_, rfl⟩
    | .stock, _ => exact ⟨false, rfl⟩
    | .talon, _ => exact ⟨true, rfl⟩
    | .tableau i, [] => exact absurd rfl h
    | .foundation i, [] => exact absurd rfl h

/-- Every successful `move_cards` is either the src = dst no-op or the
two-pile update, possibly upgraded to a win. -/
theorem move_cards_ok_shape {state : PlayingGameState} {src : PileRef}
    {take_n : Nat} {dst : PileRef} {r : MoveResult}
    (h : move_cards state src take_n dst = some (.ok r)) :
    r = .playing state ∨
    ∃ ss ds s2, state.get_stack src = some ss ∧ state.get_stack dst = some ds ∧
      take_n ≤ ss.length ∧ src ≠ dst ∧
      s2 = (state.set_stack src
          (match (ss.take (ss.length - take_n)).getLast? with
           | some c =>
             (ss.take (ss.length - take_n)).dropLast ++ [{ c with face_up := true }]
           | none => ss.take (ss.length - take_n))).set_stack dst
          (ds ++ ss.drop (ss.length - take_n)) ∧
      (r = .playing s2 ∨
        (r = .win ⟨s2.foundations⟩ ∧ ∀ f ∈ s2.foundations, 13 ≤ f.length)) := by
  unfold move_cards at h
  by_cases h0 : take_n = 0
  · rw [if_pos h0] at h
    exact absurd h (by simp)
  rw [if_neg h0] at h
  by_cases h1 : src = .stock
  · rw [if_pos h1] at h
    exact absurd h (by simp)
  rw [if_neg h1] at h
  by_cases h2 : src = .talon ∧ take_n ≠ 1
  · rw [if_pos h2] at h
    exact absurd h (by simp)
  rw [if_neg h2] at h
  by_cases h3 : dst = .stock
  · rw [if_pos h3] at h
    exact absurd h (by simp)
  rw [if_neg h3] at h
  by_cases h4 : dst = .talon
  · rw [if_pos h4] at h
    exact absurd h (by simp)
  rw [if_neg h4] at h
  by_cases h5 : dst.isFoundation ∧ take_n ≠ 1
  · rw [if_pos h5] at h
    exact absurd h (by simp)
  rw [if_neg h5] at h
  by_cases h6 : src = dst
  · rw [if_pos h6] at h
    left
    simp only [Option.some.injEq, Except.ok.injEq] at h
    exact h.symm
  rw [if_neg h6] at h
  match hss : state.get_stack src with
  | none =>
    rw [hss] at h
    exact absurd h (by simp)
  | some ss =>
    rw [hss] at h
    dsimp only at h
    by_cases h7 : ss.length < take_n
    · rw [if_pos h7] at h
      exact absurd h (by simp)
    rw [if_neg h7] at h
    match hvs : valid_seq src (ss.drop (ss.length - take_n)) with
    | none =>
      rw [hvs] at h
      exact absurd h (by simp)
    | some false =>
      rw [hvs] at h
      exact absurd h (by simp)
    | some true =>
      rw [hvs] at h
      dsimp only at h
      match hds : state.get_stack dst with
      | none =>
        rw [hds] at h
        exact absurd h (by simp)
      | some ds =>
        rw [hds] at h
        dsimp only at h
        right
        refine ⟨ss, ds, _, rfl, rfl, by omega, h6, rfl, ?_⟩
        by_cases h8 : ds.isEmpty
        · rw [if_pos h8] at h
          match dst, h3, h4, h with
          | .tableau j, _, _, h =>
            by_cases h9 :
                ((ss.drop (ss.length - take_n)).headD default).rank ≠ .king
            · rw [if_pos h9] at h
              exact absurd h (by simp)
            · rw [if_neg h9] at h
              left
              simp only [Option.some.injEq, Except.ok.injEq] at h
              exact h.symm
          | .foundation j, _, _, h =>
            by_cases h9 :
                ((ss.drop (ss.length - take_n)).headD default).rank ≠ .ace
            · rw [if_pos h9] at h
              exact absurd h (by simp)
            · rw [if_neg h9] at h
              by_cases h10 :
                  (((state.set_stack src
                      (match (ss.take (ss.length - take_n)).getLast? with
                       | some c => (ss.take (ss.length - take_n)).dropLast ++
                           [{ c with face_up := true }]
                       | none => ss.take (ss.length - take_n))).set_stack
                      (.foundation j)
                      (ds ++ ss.drop (ss.length - take_n))).foundations.all
                    fun f => 13 ≤ f.length)
              · rw [if_pos h10] at h
                right
                simp only [Option.some.injEq, Except.ok.injEq] at h
                refine ⟨h.symm, ?_⟩
                simpa using h10
              · rw [if_neg h10] at h
                left
                simp only [Option.some.injEq, Except.ok.injEq] at h
                exact h.symm
        · rw [if_neg h8] at h
          match hvd : valid_seq dst
              (((ds ++ ss.drop (ss.length - take_n)).drop
                  ((ds ++ ss.drop (ss.length - take_n)).length - take_n - 1)).take 2) with
          | none =>
            rw [hvd] at h
            exact absurd h (by simp)
          | some false =>
            rw [hvd] at h
            exact absurd h (by simp)
          | some true =>
            rw [hvd] at h
            match dst, h3, h4, h with
            | .tableau j, _, _, h =>
              left
              simp only [Option.some.injEq, Except.ok.injEq] at h
              exact h.symm
            | .foundation j, _, _, h =>
              by_cases h10 :
                  (((state.set_stack src
                      (match (ss.take (ss.length - take_n)).getLast? with
                       | some c => (ss.take (ss.length - take_n)).dropLast ++
                           [{ c with face_up := true }]
                       | none => ss.take (ss.length - take_n))).set_stack
                      (.foundation j)
                      (ds ++ ss.drop (ss.length - take_n))).foundations.all
                    fun f => 13 ≤ f.length)
              · rw [if_pos h10] at h
                right
                simp only [Option.some.injEq, Except.ok.injEq] at h
                refine ⟨h.symm, ?_⟩
                simpa using h10
              · rw [if_neg h10] at h
                left
                simp only [Option.some.injEq, Except.ok.injEq] at h
                exact h.symm

/-! ## Conservation for `move_cards` -/

theorem set_stack_bag (s : PlayingGameState) (p : PileRef) (v stack : Pile)
    (h : s.get_stack p = some stack) :
    (s.set_stack p v).bag + bagOf stack = s.bag + bagOf v := by
  cases p with
  | tableau n =>
    unfold PlayingGameState.get_stack at h
    dsimp only at h
    have hlt : n < s.tableau.length := by
      by_contra hge
      rw [List.getElem?_eq_none (by omega)] at h
      exact absurd h (by simp)
    have hstack : s.tableau.getD n [] = stack := by
      rw [List.getD_eq_getElem?_getD, h]
      rfl
    have key := bagOfPiles_set_add v s.tableau n hlt
    rw [hstack] at key
    unfold PlayingGameState.set_stack PlayingGameState.bag
    dsimp only
    calc bagOfPiles (s.tableau.set n v) + bagOfPiles s.foundations +
          bagOf s.stock + bagOf s.talon + bagOf stack
        = (bagOfPiles (s.tableau.set n v) + bagOf stack) +
          (bagOfPiles s.foundations + bagOf s.stock + bagOf s.talon) := by abel
      _ = (bagOfPiles s.tableau + bagOf v) +
          (bagOfPiles s.foundations + bagOf s.stock + bagOf s.talon) := by rw [key]
      _ = _ := by abel
  | foundation n =>
    unfold PlayingGameState.get_stack at h
    dsimp only at h
    have hlt : n < s.foundations.length := by
      by_contra hge
      rw [List.getElem?_eq_none (by omega)] at h
      exact absurd h (by simp)
    have hstack : s.foundations.getD n [] = stack := by
      rw [List.getD_eq_getElem?_getD, h]
      rfl
    have key := bagOfPiles_set_add v s.foundations n hlt
    rw [hstack] at key
    unfold PlayingGameState.set_stack PlayingGameState.bag
    dsimp only
    calc bagOfPiles s.tableau + bagOfPiles (s.foundations.set n v) +
          bagOf s.stock + bagOf s.talon + bagOf stack
        = (bagOfPiles (s.foundations.set n v) + bagOf stack) +
          (bagOfPiles s.tableau + bagOf s.stock + bagOf s.talon) := by abel
      _ = (bagOfPiles s.foundations + bagOf v) +
          (bagOfPiles s.tableau + bagOf s.stock + bagOf s.talon) := by rw [key]
      _ = _ := by abel
  | stock =>
    unfold PlayingGameState.get_stack at h
    dsimp only at h
    have hstack : s.stock = stack := by
      injection h
    unfold PlayingGameState.set_stack PlayingGameState.bag
    dsimp only
    rw [← hstack]
    abel
  | talon =>
    unfold PlayingGameState.get_stack at h
    dsimp only at h
    have hstack : s.talon = stack := by
      injection h
    unfold PlayingGameState.set_stack PlayingGameState.bag
    dsimp only
    rw [← hstack]
    abel

theorem get_stack_set_stack_ne (s : PlayingGameState) {p q : PileRef} (v : Pile)
    (hne : q ≠ p) : (s.set_stack p v).get_stack q = s.get_stack q := by
  cases p <;> cases q <;>
    simp_all [PlayingGameState.set_stack, PlayingGameState.get_stack,
      List.getElem?_set]
  all_goals intro hc
  all_goals exact absurd hc.symm hne

theorem set_stack_foundations_length (s : PlayingGameState) (p : PileRef)
    (v : Pile) : (s.set_stack p v).foundations.length = s.foundations.length := by
  cases p <;> simp [PlayingGameState.set_stack]

/-- The core two-pile update of `move_cards` preserves the bag. -/
theorem moved_bag (state : PlayingGameState) (src dst : PileRef)
    (take_n : Nat) (ss ds : Pile) (hss : state.get_stack src = some ss)
    (hds : state.get_stack dst = some ds) (hne : src ≠ dst) :
    ((state.set_stack src
        (match (ss.take (ss.length - take_n)).getLast? with
         | some c =>
           (ss.take (ss.length - take_n)).dropLast ++ [{ c with face_up := true }]
         | none => ss.take (ss.length - take_n))).set_stack dst
        (ds ++ ss.drop (ss.length - take_n))).bag = state.bag := by
  have h1 : (state.set_stack src
      (match (ss.take (ss.length - take_n)).getLast? with
       | some c =>
         (ss.take (ss.length - take_n)).dropLast ++ [{ c with face_up := true }]
       | none => ss.take (ss.length - take_n))).get_stack dst = some ds := by
    rw [get_stack_set_stack_ne state _ fun hc => hne hc.symm]
    exact hds
  have e2 := set_stack_bag _ dst (ds ++ ss.drop (ss.length - take_n)) ds h1
  have e1 := set_stack_bag state src
    (match (ss.take (ss.length - take_n)).getLast? with
     | some c =>
       (ss.take (ss.length - take_n)).dropLast ++ [{ c with face_up := true }]
     | none => ss.take (ss.length - take_n)) ss hss
  have efix : bagOf (match (ss.take (ss.length - take_n)).getLast? with
      | some c =>
        (ss.take (ss.length - take_n)).dropLast ++ [{ c with face_up := true }]
      | none => ss.take (ss.length - take_n)) =
      bagOf (ss.take (ss.length - take_n)) := bagOf_fix_last _
  have esplit : bagOf (ss.take (ss.length - take_n)) +
      bagOf (ss.drop (ss.length - take_n)) = bagOf ss := by
    rw [← bagOf_append, List.take_append_drop]
  apply bag_cancel (c := bagOf ds + bagOf ss)
  calc ((state.set_stack src _).set_stack dst _).bag + (bagOf ds + bagOf ss)
      = (((state.set_stack src _).set_stack dst _).bag + bagOf ds) + bagOf ss := by
        abel
    _ = ((state.set_stack src _).bag +
          bagOf (ds ++ ss.drop (ss.length - take_n))) + bagOf ss := by rw [e2]
    _ = ((state.set_stack src _).bag + bagOf ss) +
          bagOf (ds ++ ss.drop (ss.length - take_n)) := by abel
    _ = (state.bag + bagOf (match (ss.take (ss.length - take_n)).getLast? with
          | some c => (ss.take (ss.length - take_n)).dropLast ++
              [{ c with face_up := true }]
          | none => ss.take (ss.length - take_n))) +
          bagOf (ds ++ ss.drop (ss.length - take_n)) := by rw [e1]
    _ = state.bag + (bagOf ds +
          (bagOf (ss.take (ss.length - take_n)) +
            bagOf (ss.drop (ss.length - take_n)))) := by rw [efix, bagOf_append]; abel
    _ = state.bag + (bagOf ds + bagOf ss) := by rw [esplit]

theorem foundations_sum_ge (fs : List Pile) (hlen : fs.length = 4)
    (hall : ∀ f ∈ fs, 13 ≤ f.length) : 52 ≤ (fs.map List.length).sum := by
  match fs, hlen with
  | [a, b, c, d], _ =>
    have ha := hall a (by simp)
    have hb := hall b (by simp)
    have hc := hall c (by simp)
    have hd := hall d (by simp)
    simp only [List.map_cons, List.map_nil, List.sum_cons, List.sum_nil]
    omega

/-- Conservation for a successful `move_cards` on a well-formed full-deck
state (the win transition needs both hypotheses: it keeps only the
foundations, which are forced to hold all 52 cards). -/
theorem move_cards_result_bag {state : PlayingGameState} {src : PileRef}
    {take_n : Nat} {dst : PileRef} {r : MoveResult} (hwf : state.WF)
    (hfull : state.bag = fullDeckBag)
    (h : move_cards state src take_n dst = some (.ok r)) :
    r.bag = fullDeckBag := by
  rcases move_cards_ok_shape h with heq | ⟨ss, ds, s2, hss, hds, hlen, hne, hs2, hr⟩
  · rw [heq]
    exact hfull
  · have hbag2 : s2.bag = fullDeckBag := by
      rw [hs2, moved_bag state src dst take_n ss ds hss hds hne]
      exact hfull
    rcases hr with hr | ⟨hr, hall⟩
    · rw [hr]
      exact hbag2
    · rw [hr]
      have hflen : s2.foundations.length = 4 := by
        rw [hs2, set_stack_foundations_length, set_stack_foundations_length]
        exact hwf.2
      have hcard := congrArg Multiset.card hbag2
      unfold PlayingGameState.bag at hcard
      rw [Multiset.card_add, Multiset.card_add, Multiset.card_add,
        card_bagOfPiles, card_bagOfPiles, card_bagOf, card_bagOf,
        card_fullDeckBag] at hcard
      have hge := foundations_sum_ge s2.foundations hflen hall
      have ht0 : bagOfPiles s2.tableau = 0 :=
        Multiset.card_eq_zero.mp (by rw [card_bagOfPiles]; omega)
      have hs0 : bagOf s2.stock = 0 :=
        Multiset.card_eq_zero.mp (by rw [card_bagOf]; omega)
      have htl0 : bagOf s2.talon = 0 :=
        Multiset.card_eq_zero.mp (by rw [card_bagOf]; omega)
      show bagOfPiles s2.foundations = fullDeckBag
      rw [← hbag2]
      unfold PlayingGameState.bag
      rw [ht0, hs0, htl0, zero_add, add_zero, add_zero]

/-- `move_cards` always returns a value (never hits the `valid_seq` panic),
and that value is a success, an invalid-input error, or an invalid-move
error (never `Error.unknown`). -/
theorem move_cards_cases (state : PlayingGameState) (src : PileRef)
    (take_n : Nat) (dst : PileRef) :
    (∃ r, move_cards state src take_n dst = some (.ok r)) ∨
    (∃ f m, move_cards state src take_n dst = some (.error (.invalidInput f m))) ∨
    (∃ m, move_cards state src take_n dst = some (.error (.invalidMove m))) := by
  unfold move_cards
  by_cases h0 : take_n = 0
  · rw [if_pos h0]
    exact Or.inr (Or.inl ⟨_, _, rfl⟩)
  rw [if_neg h0]
  by_cases h1 : src = .stock
  · rw [if_pos h1]
    exact Or.inr (Or.inl ⟨_, _, rfl⟩)
  rw [if_neg h1]
  by_cases h2 : src = .talon ∧ take_n ≠ 1
  · rw [if_pos h2]
    exact Or.inr (Or.inl ⟨_, _, rfl⟩)
  rw [if_neg h2]
  by_cases h3 : dst = .stock
  · rw [if_pos h3]
    exact Or.inr (Or.inl ⟨_, _, rfl⟩)
  rw [if_neg h3]
  by_cases h4 : dst = .talon
  · rw [if_pos h4]
    exact Or.inr (Or.inl ⟨_, _, rfl⟩)
  rw [if_neg h4]
  by_cases h5 : dst.isFoundation ∧ take_n ≠ 1
  · rw [if_pos h5]
    exact Or.inr (Or.inl ⟨_, _, rfl⟩)
  rw [if_neg h5]
  by_cases h6 : src = dst
  · rw [if_pos h6]
    exact Or.inl ⟨_, rfl⟩
  rw [if_neg h6]
  match hss : state.get_stack src with
  | none => exact Or.inr (Or.inl ⟨_, _, rfl⟩)
  | some ss =>
    dsimp only
    by_cases h7 : ss.length < take_n
    · rw [if_pos h7]
      exact Or.inr (Or.inl ⟨_, _, rfl⟩)
    rw [if_neg h7]
    obtain ⟨b1, hb1⟩ := valid_seq_some
      src (ss.drop (ss.length - take_n))
      (by
        apply List.ne_nil_of_length_pos
        rw [List.length_drop]
        omega)
    rw [hb1]
    match b1 with
    | false => exact Or.inr (Or.inr ⟨_, rfl⟩)
    | true =>
      dsimp only
      match hds : state.get_stack dst with
      | none => exact Or.inr (Or.inl ⟨_, _, rfl⟩)
      | some ds =>
        dsimp only
        by_cases h8 : ds.isEmpty
        · rw [if_pos h8]
          match dst, h3, h4 with
          | .tableau j, _, _ =>
            by_cases h9 :
                ((ss.drop (ss.length - take_n)).headD default).rank ≠ .king
            · rw [if_pos h9]
              exact Or.inr (Or.inr ⟨_, rfl⟩)
            · rw [if_neg h9]
              exact Or.inl ⟨_, rfl⟩
          | .foundation j, _, _ =>
            by_cases h9 :
                ((ss.drop (ss.length - take_n)).headD default).rank ≠ .ace
            · rw [if_pos h9]
              exact Or.inr (Or.inr ⟨_, rfl⟩)
            · rw [if_neg h9]
              dsimp only
              by_cases h10 : (((state.set_stack src
                  (match (ss.take (ss.length - take_n)).getLast? with
                   | some c => (ss.take (ss.length - take_n)).dropLast ++
                       [{ c with face_up := true }]
                   | none => ss.take (ss.length - take_n))).set_stack
                  (.foundation j)
                  (ds ++ ss.drop (ss.length - take_n))).foundations.all
                    fun f => 13 ≤ f.length)
              · rw [if_pos h10]
                exact Or.inl ⟨_, rfl⟩
              · rw [if_neg h10]
                exact Or.inl ⟨_, rfl⟩
        · rw [if_neg h8]
          obtain ⟨b2, hb2⟩ := valid_seq_some
            dst
            (((ds ++ ss.drop (ss.length - take_n)).drop
              ((ds ++ ss.drop (ss.length - take_n)).length - take_n - 1)).take 2)
            (by
              apply List.ne_nil_of_length_pos
              rw [List.length_take, List.length_drop, List.length_append,
                List.length_drop]
              have hd : ds ≠ [] := by
                intro e
                rw [e] at h8
                exact h8 rfl
              have : 0 < ds.length := List.length_pos.mpr hd
              omega)
          rw [hb2]
          match b2 with
          | false => exact Or.inr (Or.inr ⟨_, rfl⟩)
          | true =>
            match dst, h3, h4 with
            | .tableau j, _, _ => exact Or.inl ⟨_, rfl⟩
            | .foundation j, _, _ =>
              dsimp only
              by_cases h10 : (((state.set_stack src
                  (match (ss.take (ss.length - take_n)).getLast? with
                   | some c => (ss.take (ss.length - take_n)).dropLast ++
                       [{ c with face_up := true }]
                   | none => ss.take (ss.length - take_n))).set_stack
                  (.foundation j)
                  (ds ++ ss.drop (ss.length - take_n))).foundations.all
                    fun f => 13 ≤ f.length)
              · rw [if_pos h10]
                exact Or.inl ⟨_, rfl⟩
              · rw [if_neg h10]
                exact Or.inl ⟨_, rfl⟩

/-! ## The `auto_move_card` candidate loop -/

/-- The candidate loop either stops at the first candidate whose attempt
is a success or an invalid-input error (returning exactly that attempt's
result, all earlier attempts having been invalid moves), or every attempt
is an invalid move and the loop is the no-op success. -/
theorem try_move_list_spec (state : PlayingGameState) (src : PileRef) (n : Nat) :
    ∀ L : List PileRef,
      (∃ i, i < L.length ∧
        (∀ j, j < i → ∃ m, move_cards state src n (L.getD j .stock) =
          some (.error (.invalidMove m))) ∧
        try_move_list state src n L = move_cards state src n (L.getD i .stock) ∧
        ((∃ r, move_cards state src n (L.getD i .stock) = some (.ok r)) ∨
          (∃ f m, move_cards state src n (L.getD i .stock) =
            some (.error (.invalidInput f m))))) ∨
      ((∀ j, j < L.length → ∃ m, move_cards state src n (L.getD j .stock) =
          some (.error (.invalidMove m))) ∧
        try_move_list state src n L = some (.ok (.playing state))) := by
  intro L
  induction L with
  | nil =>
    right
    exact ⟨fun j hj => absurd hj (by simp), rfl⟩
  | cons d rest ih =>
    rcases move_cards_cases state src n d with ⟨r, hok⟩ | ⟨f, m, herr⟩ | ⟨m, hmv⟩
    · left
      refine ⟨0, by simp, fun j hj => absurd hj (by omega), ?_, Or.inl ⟨r, by
        rw [show (d :: rest).getD 0 .stock = d from rfl]
        exact hok⟩⟩
      rw [show (d :: rest).getD 0 .stock = d from rfl, try_move_list, hok]
    · left
      refine ⟨0, by simp, fun j hj => absurd hj (by omega), ?_,
        Or.inr ⟨f, m, by
          rw [show (d :: rest).getD 0 .stock = d from rfl]
          exact herr⟩⟩
      rw [show (d :: rest).getD 0 .stock = d from rfl, try_move_list, herr]
    · have hstep : try_move_list state src n (d :: rest) =
          try_move_list state src n rest := by
        rw [try_move_list, hmv]
      rcases ih with ⟨i, hi, hpre, heq, hcls⟩ | ⟨hall, heq⟩
      · left
        refine ⟨i + 1, by simp; omega, ?_, ?_, ?_⟩
        · intro j hj
          match j with
          | 0 => exact ⟨m, hmv⟩
          | j + 1 => exact hpre j (by omega)
        · rw [hstep, show (d :: rest).getD (i + 1) .stock = rest.getD i .stock
            from rfl]
          exact heq
        · rw [show (d :: rest).getD (i + 1) .stock = rest.getD i .stock from rfl]
          exact hcls
      · right
        refine ⟨?_, by rw [hstep]; exact heq⟩
        intro j hj
        match j with
        | 0 => exact ⟨m, hmv⟩
        | j + 1 =>
          exact hall j (by simpa using Nat.lt_of_succ_lt_succ hj)

/-- A successful candidate-loop run is the input state unchanged or one
successful `move_cards`. -/
theorem try_move_list_ok (state : PlayingGameState) (src : PileRef) (n : Nat) :
    ∀ (L : List PileRef) (r : MoveResult),
      try_move_list state src n L = some (.ok r) →
      r = .playing state ∨ ∃ d, move_cards state src n d = some (.ok r) := by
  intro L
  induction L with
  | nil =>
    intro r h
    left
    rw [try_move_list] at h
    simp only [Option.some.injEq, Except.ok.injEq] at h
    exact h.symm
  | cons d rest ih =>
    intro r h
    rw [try_move_list] at h
    match hmc : move_cards state src n d with
    | none =>
      rw [hmc] at h
      exact absurd h (by simp)
    | some (.ok r') =>
      rw [hmc] at h
      simp only [Option.some.injEq, Except.ok.injEq] at h
      subst h
      exact Or.inr ⟨d, hmc⟩
    | some (.error (.invalidInput f m)) =>
      rw [hmc] at h
      exact absurd h (by simp)
    | some (.error (.invalidMove m)) =>
      rw [hmc] at h
      exact ih r h
    | some (.error .unknown) =>
      rw [hmc] at h
      exact ih r h

/-- Conservation for a successful `auto_move_card`. -/
theorem auto_move_card_bag {state : PlayingGameState} {src : PileRef} {n : Nat}
    {r : MoveResult} (hwf : state.WF) (hfull : state.bag = fullDeckBag)
    (h : auto_move_card state src n = some (.ok r)) : r.bag = fullDeckBag := by
  unfold auto_move_card at h
  match src, h with
  | .foundation k, h =>
    simp only [Option.some.injEq, Except.ok.injEq] at h
    rw [← h]
    exact hfull
  | .tableau k, h =>
    rcases try_move_list_ok state _ n _ r h with heq | ⟨d, hd⟩
    · rw [heq]
      exact hfull
    · exact move_cards_result_bag hwf hfull hd
  | .stock, h =>
    rcases try_move_list_ok state _ n _ r h with heq | ⟨d, hd⟩
    · rw [heq]
      exact hfull
    · exact move_cards_result_bag hwf hfull hd
  | .talon, h =>
    rcases try_move_list_ok state _ n _ r h with heq | ⟨d, hd⟩
    · rw [heq]
      exact hfull
    · exact move_cards_result_bag hwf hfull hd

/-- A successful scan of `auto_move_to_foundation` is the input state
unchanged or one successful `auto_move_card`. -/
theorem auto_to_foundation_scan_ok (state : PlayingGameState) :
    ∀ (L : List PileRef) (r : MoveResult),
      auto_to_foundation_scan state L = some r →
      r = .playing state ∨ ∃ p, auto_move_card state p 1 = some (.ok r) := by
  intro L
  induction L with
  | nil =>
    intro r h
    left
    rw [auto_to_foundation_scan] at h
    simp only [Option.some.injEq] at h
    exact h.symm
  | cons p rest ih =>
    intro r h
    rw [auto_to_foundation_scan] at h
    match hgs : state.get_stack p with
    | none =>
      rw [hgs] at h
      exact absurd h (by simp)
    | some stack =>
      rw [hgs] at h
      dsimp only at h
      match hlast : stack.getLast? with
      | none =>
        rw [hlast] at h
        exact ih r h
      | some c =>
        rw [hlast] at h
        dsimp only at h
        by_cases hsafe : is_safe_to_move_to_foundation c state.foundations
        · rw [if_pos hsafe] at h
          match hamc : auto_move_card state p 1 with
          | some (.ok r') =>
            rw [hamc] at h
            simp only [Option.some.injEq] at h
            subst h
            exact Or.inr ⟨p, hamc⟩
          | some (.error e) =>
            rw [hamc] at h
            exact absurd h (by simp)
          | none =>
            rw [hamc] at h
            exact absurd h (by simp)
        · rw [if_neg hsafe] at h
          exact ih r h

/-- Conservation for a successful `auto_move_to_foundation`. -/
theorem auto_move_to_foundation_bag {state : PlayingGameState} {r : MoveResult}
    (hwf : state.WF) (hfull : state.bag = fullDeckBag)
    (h : auto_move_to_foundation state = some r) : r.bag = fullDeckBag := by
  unfold auto_move_to_foundation at h
  rcases auto_to_foundation_scan_ok state _ r h with heq | ⟨p, hp⟩
  · rw [heq]
    exact hfull
  · exact auto_move_card_bag hwf hfull hp

/-! ## Claim C1: card conservation -/

/-- **C1**: every rules-engine operation (`deal_one`, `deal_all`,
`draw_stock`, `move_cards`, `auto_move_card`, `auto_move_to_foundation`)
applied to an input state whose reachable piles hold the 52-card multiset
produces an output state whose reachable piles hold exactly the same
multiset (ignoring face flags): tableau + stock while dealing, all four
pile groups while playing, and the foundations alone for a win (the win
transition is only taken when the four foundations hold all 52 cards, so
dropping the other piles loses nothing).  The playing-state operations
assume the type-level well-formedness that the Rust arrays enforce (seven
tableau piles, four foundations). -/
theorem C1_card_conservation :
    (∀ (s : InitialGameState) (r : DealResult),
      s.bag = fullDeckBag → deal_one s = some r → r.bag = fullDeckBag) ∧
    (∀ (s : InitialGameState) (p : PlayingGameState),
      s.bag = fullDeckBag → deal_all s = some p → p.bag = fullDeckBag) ∧
    (∀ (s : PlayingGameState) (n : Nat) (s' : PlayingGameState),
      s.bag = fullDeckBag → draw_stock s n = .ok s' → s'.bag = fullDeckBag) ∧
    (∀ (s : PlayingGameState) (src : PileRef) (n : Nat) (dst : PileRef)
      (r : MoveResult), s.WF → s.bag = fullDeckBag →
      move_cards s src n dst = some (.ok r) → r.bag = fullDeckBag) ∧
    (∀ (s : PlayingGameState) (src : PileRef) (n : Nat) (r : MoveResult),
      s.WF → s.bag = fullDeckBag →
      auto_move_card s src n = some (.ok r) → r.bag = fullDeckBag) ∧
    (∀ (s : PlayingGameState) (r : MoveResult),
      s.WF → s.bag = fullDeckBag →
      auto_move_to_foundation s = some r → r.bag = fullDeckBag) := by
  refine ⟨?_, ?_, ?_, ?_, ?_, ?_⟩
  · intro s r hb h
    rw [deal_one_bag s r h, hb]
  · intro s p hb h
    exact deal_all_bag s p hb h
  · intro s n s' hb h
    rw [draw_stock_bag s n s' h, hb]
  · intro s src n dst r hwf hb h
    exact move_cards_result_bag hwf hb h
  · intro s src n r hwf hb h
    exact auto_move_card_bag hwf hb h
  · intro s r hwf hb h
    exact auto_move_to_foundation_bag hwf hb h

/-- Witness for C1: drawing a card from the fully dealt canonical deck
preserves the 52-card multiset. -/
theorem C1_card_conservation_witness :
    dealtGame.bag = fullDeckBag ∧
    ∃ s', draw_stock dealtGame 1 = .ok s' ∧ s'.bag = fullDeckBag := by
  refine ⟨by decide, ⟨_, rfl, ?_⟩⟩
  exact C1_card_conservation.2.2.1 dealtGame 1 _ (by decide) rfl

/-! ## Claim C10: the `valid_seq` panic and its unreachability -/

/-- **C10**: `valid_seq` reads the first element of the card list
unconditionally for Tableau and Foundation pile references, so on an empty
list it panics for those pile kinds (modelled as `none`); it is total
(`some`) whenever the list is non-empty; and `move_cards` never reaches the
panic: it always returns a value, because `take_n = 0` is rejected before
`valid_seq` is reached, `take_n ≤ src length` is enforced (making the taken
run non-empty), and the destination pair check is only made on a two-card
slice of a non-empty pile. -/
theorem C10_valid_seq_panic :
    (∀ i, valid_seq (.tableau i) [] = none) ∧
    (∀ i, valid_seq (.foundation i) [] = none) ∧
    (∀ (p : PileRef) (cs : List Card), cs ≠ [] → ∃ b, valid_seq p cs = some b) ∧
    (∀ (state : PlayingGameState) (src : PileRef) (take_n : Nat) (dst : PileRef),
      (move_cards state src take_n dst).isSome) := by
  refine ⟨fun i => rfl, fun i => rfl, fun p cs h => valid_seq_some p cs h, ?_⟩
  intro state src take_n dst
  rcases move_cards_cases state src take_n dst with ⟨r, h⟩ | ⟨f, m, h⟩ | ⟨m, h⟩ <;>
    rw [h] <;> rfl

/-- Witness for C10 on a non-empty run. -/
theorem C10_valid_seq_panic_witness :
    ∃ b, valid_seq (.tableau 0) [⟨.clubs, .king, true⟩] = some b :=
  C10_valid_seq_panic.2.2.1 _ _ (by decide)

/-! ## Claim C5: take_n = 0 and the src = dst no-op -/

/-- **C5, counterexample**: the claim says `move_cards(state, p, n, p)` with
`n ≥ 1` *always* succeeds as a no-op, for every pile `p`.  With `p = Stock`
the call fails the source validation (which runs before the src = dst
check), so it returns an invalid-input error instead. -/
theorem C5_counterexample :
    move_cards drawGame .stock 1 .stock =
      some (.error (.invalidInput "src" "cannot move cards from stock")) := rfl

/-- **C5, amended**: `move_cards(state, src, 0, dst)` always fails with the
invalid-input error for `take_n` ("cannot take 0 cards"); and
`move_cards(state, p, n, p)` with `n ≥ 1` succeeds as a no-op (returning
`Playing` with the state unchanged) exactly when `p` is a Tableau pile, or
a Foundation pile with `n = 1` — the pile-kind validations run before the
src = dst check, so `p = Stock`, `p = Talon`, and `p = Foundation` with
`n ≥ 2` instead return the corresponding invalid-input error. -/
theorem C5_amended (state : PlayingGameState) (src : PileRef) (take_n : Nat)
    (dst : PileRef) :
    (move_cards state src 0 dst =
      some (.error (.invalidInput "take_n" "cannot take 0 cards"))) ∧
    (1 ≤ take_n →
      ((∀ i, src = .tableau i →
        move_cards state src take_n src = some (.ok (.playing state))) ∧
       (∀ i, src = .foundation i → take_n = 1 →
        move_cards state src take_n src = some (.ok (.playing state))) ∧
       (src = .stock →
        move_cards state src take_n src =
          some (.error (.invalidInput "src" "cannot move cards from stock"))) ∧
       (src = .talon → take_n = 1 →
        move_cards state src take_n src =
          some (.error (.invalidInput "dst" "cannot move cards to talon"))) ∧
       (src = .talon → take_n ≠ 1 →
        move_cards state src take_n src =
          some (.error
            (.invalidInput "take_n" "cannot move more than 1 card from talon"))) ∧
       (∀ i, src = .foundation i → take_n ≠ 1 →
        move_cards state src take_n src =
          some (.error
            (.invalidInput "take_n" "cannot move more than 1 card to foundation"))))) := by
  constructor
  · unfold move_cards
    rw [if_pos rfl]
  · intro h1
    have h0 : take_n ≠ 0 := by omega
    refine ⟨?_, ?_, ?_, ?_, ?_, ?_⟩
    · intro i hsrc
      subst hsrc
      simp [move_cards, h0, PileRef.isFoundation]
    · intro i hsrc htn
      subst hsrc
      subst htn
      simp [move_cards, PileRef.isFoundation]
    · intro hsrc
      subst hsrc
      simp [move_cards, h0]
    · intro hsrc htn
      subst hsrc
      subst htn
      simp [move_cards]
    · intro hsrc htn
      subst hsrc
      simp [move_cards, h0, htn]
    · intro i hsrc htn
      subst hsrc
      simp [move_cards, h0, htn, PileRef.isFoundation]

/-- Witness for the amended C5: a same-pile tableau move with take_n = 3 is
a successful no-op. -/
theorem C5_amended_witness :
    move_cards drawGame (.tableau 2) 3 (.tableau 2) =
      some (.ok (.playing drawGame)) :=
  ((C5_amended drawGame (.tableau 2) 3 (.tableau 2)).2 (by decide)).1 2 rfl

/-! ## Claim C6: empty destinations accept exactly Kings / Aces -/

/-- **C6**: a `move_cards` call that passes every earlier check
(`take_n ≥ 1`, legal src/dst kinds, src ≠ dst, enough cards in src, valid
taken run) and whose destination pile exists and is empty succeeds iff the
bottom card of the taken run is a King (Tableau destination) or an Ace
(Foundation destination); any other rank yields the invalid-move error and
no new state. -/
theorem C6_empty_destination (state : PlayingGameState) (src : PileRef)
    (take_n : Nat) (dst : PileRef) (ss : Pile)
    (h1 : 1 ≤ take_n)
    (hsrc : src ≠ .stock) (hsrctalon : src = .talon → take_n = 1)
    (hdfnd : dst.isFoundation = true → take_n = 1)
    (hne : src ≠ dst)
    (hss : state.get_stack src = some ss)
    (hlen : take_n ≤ ss.length)
    (hvalid : valid_seq src (ss.drop (ss.length - take_n)) = some true)
    (hds : state.get_stack dst = some []) :
    (∀ j, dst = .tableau j →
      ((((ss.drop (ss.length - take_n)).headD default).rank = .king →
         ∃ r, move_cards state src take_n dst = some (.ok r)) ∧
       (((ss.drop (ss.length - take_n)).headD default).rank ≠ .king →
         move_cards state src take_n dst =
           some (.error (.invalidMove "can only move a King to a space"))))) ∧
    (∀ j, dst = .foundation j →
      ((((ss.drop (ss.length - take_n)).headD default).rank = .ace →
         ∃ r, move_cards state src take_n dst = some (.ok r)) ∧
       (((ss.drop (ss.length - take_n)).headD default).rank ≠ .ace →
         move_cards state src take_n dst =
           some (.error (.invalidMove "dst sequence is invalid"))))) := by
  have h0 : take_n ≠ 0 := by omega
  constructor
  · intro j hdst
    subst hdst
    unfold move_cards
    rw [if_neg h0, if_neg hsrc,
      if_neg (by rintro ⟨hs, hn⟩; exact hn (hsrctalon hs)),
      if_neg (by simp), if_neg (by simp),
      if_neg (by rintro ⟨hf, _⟩; exact absurd hf (by simp [PileRef.isFoundation])),
      if_neg hne, hss]
    dsimp only
    rw [if_neg (by omega), hvalid]
    dsimp only
    rw [hds]
    dsimp only
    rw [if_pos (show ([] : Pile).isEmpty = true from rfl)]
    constructor
    · intro hking
      rw [if_neg (by simpa using hking)]
      exact ⟨_, rfl⟩
    · intro hking
      rw [if_pos hking]
  · intro j hdst
    subst hdst
    unfold move_cards
    rw [if_neg h0, if_neg hsrc,
      if_neg (by rintro ⟨hs, hn⟩; exact hn (hsrctalon hs)),
      if_neg (by simp), if_neg (by simp),
      if_neg (by rintro ⟨_, hn⟩; exact hn (hdfnd (by simp [PileRef.isFoundation]))),
      if_neg hne, hss]
    dsimp only
    rw [if_neg (by omega), hvalid]
    dsimp only
    rw [hds]
    dsimp only
    rw [if_pos (show ([] : Pile).isEmpty = true from rfl)]
    constructor
    · intro hace
      rw [if_neg (by simpa using hace)]
      by_cases hwin : (((state.set_stack src
          (match (ss.take (ss.length - take_n)).getLast? with
           | some c => (ss.take (ss.length - take_n)).dropLast ++
               [{ c with face_up := true }]
           | none => ss.take (ss.length - take_n))).set_stack (.foundation j)
          ([] ++ ss.drop (ss.length - take_n))).foundations.all
            fun f => 13 ≤ f.length)
      · rw [if_pos hwin]
        exact ⟨_, rfl⟩
      · rw [if_neg hwin]
        exact ⟨_, rfl⟩
    · intro hace
      rw [if_pos hace]

/-- Witness for C6: a lone King moved onto an empty tableau pile. -/
theorem C6_empty_destination_witness :
    ∃ r, move_cards kingMoveGame (.tableau 0) 1 (.tableau 1) = some (.ok r) :=
  ((C6_empty_destination kingMoveGame (.tableau 0) 1 (.tableau 1)
      [⟨.clubs, .king, true⟩] (by decide) (by decide) (fun h => by decide)
      (fun h => rfl) (by decide) rfl (by decide) (by decide) rfl).1 1 rfl).1
    (by decide)

/-! ## Claim C9: `auto_move_card` -/

/-- **C9**: `auto_move_card` with a Foundation source always returns
`Ok(Playing)` with the state unchanged.  Otherwise it tries
`move_cards(src, take_n, dst)` for each candidate in `autoCandidates` —
every Foundation index 0..3 in order (only when `take_n = 1`) followed by
every Tableau index 0..6 in order excluding `src` — and either stops at the
first candidate whose attempt is a success or an invalid-input error,
returning exactly that attempt's result (all earlier attempts having been
invalid-move errors), or every attempt is an invalid-move error and it
returns `Ok(Playing)` with the state unchanged. -/
theorem C9_auto_move_card (state : PlayingGameState) (src : PileRef)
    (take_n : Nat) :
    (∀ k, src = .foundation k →
      auto_move_card state src take_n = some (.ok (.playing state))) ∧
    ((∀ k, src ≠ .foundation k) →
      (∃ i, i < (autoCandidates src take_n).length ∧
        (∀ j, j < i → ∃ m, move_cards state src take_n
          ((autoCandidates src take_n).getD j .stock) =
            some (.error (.invalidMove m))) ∧
        auto_move_card state src take_n =
          move_cards state src take_n ((autoCandidates src take_n).getD i .stock) ∧
        ((∃ r, move_cards state src take_n
            ((autoCandidates src take_n).getD i .stock) = some (.ok r)) ∨
          (∃ f m, move_cards state src take_n
            ((autoCandidates src take_n).getD i .stock) =
              some (.error (.invalidInput f m))))) ∨
      ((∀ j, j < (autoCandidates src take_n).length →
          ∃ m, move_cards state src take_n
            ((autoCandidates src take_n).getD j .stock) =
              some (.error (.invalidMove m))) ∧
        auto_move_card state src take_n = some (.ok (.playing state)))) := by
  constructor
  · intro k hk
    subst hk
    rfl
  · intro hnf
    have hred : auto_move_card state src take_n =
        try_move_list state src take_n (autoCandidates src take_n) := by
      unfold auto_move_card
      match src, hnf with
      | .tableau k, _ => rfl
      | .stock, _ => rfl
      | .talon, _ => rfl
      | .foundation k, hnf => exact absurd rfl (hnf k)
    rw [hred]
    exact try_move_list_spec state src take_n _

/-- Witness for C9: auto-moving the lone King from tableau pile 0. -/
theorem C9_auto_move_card_witness :
    (∃ i, i < (autoCandidates (.tableau 0) 1).length ∧
      (∀ j, j < i → ∃ m, move_cards kingMoveGame (.tableau 0) 1
        ((autoCandidates (.tableau 0) 1).getD j .stock) =
          some (.error (.invalidMove m))) ∧
      auto_move_card kingMoveGame (.tableau 0) 1 =
        move_cards kingMoveGame (.tableau 0) 1
          ((autoCandidates (.tableau 0) 1).getD i .stock) ∧
      ((∃ r, move_cards kingMoveGame (.tableau 0) 1
          ((autoCandidates (.tableau 0) 1).getD i .stock) = some (.ok r)) ∨
        (∃ f m, move_cards kingMoveGame (.tableau 0) 1
          ((autoCandidates (.tableau 0) 1).getD i .stock) =
            some (.error (.invalidInput f m))))) ∨
    ((∀ j, j < (autoCandidates (.tableau 0) 1).length →
        ∃ m, move_cards kingMoveGame (.tableau 0) 1
          ((autoCandidates (.tableau 0) 1).getD j .stock) =
            some (.error (.invalidMove m))) ∧
      auto_move_card kingMoveGame (.tableau 0) 1 =
        some (.ok (.playing kingMoveGame))) :=
  (C9_auto_move_card kingMoveGame (.tableau 0) 1).2
    fun k h => PileRef.noConfusion h

/-! ## Claims C2, C3, C4 -/

/-- **C2**: for every fresh (completely undealt) `InitialGameState` with any
52-card stock, `deal_all` returns a `PlayingGameState` identical (same cards
in the same positions with the same face flags) to the state obtained by
iterating `deal_one` until it returns `Complete` (which happens at exactly
the 28th step, so the loop with fuel 28 is that iteration). -/
theorem C2_deal_all_refines_deal_one (s : InitialGameState)
    (htab : s.tableau = List.replicate 7 []) (hlen : s.stock.length = 52) :
    ∃ p, deal_all s = some p ∧ deal_one_loop 28 s = some p :=
  ⟨_, deal_all_fresh s htab hlen, deal_one_iter_fresh s htab hlen⟩

/-- Witness for C2 at the canonical fresh game. -/
theorem C2_deal_all_refines_deal_one_witness :
    ∃ p, deal_all freshGame = some p ∧ deal_one_loop 28 freshGame = some p :=
  C2_deal_all_refines_deal_one freshGame rfl (by decide)

/-- **C3, counterexample**: the claim says the card dealt *last* in each
round — the one placed into the *highest*-indexed pile touched that round —
is face up.  Round 0 consists of card indices 0..6 (`roundStart 0 = 0`,
`roundStart 1 = 7`), card `t` of round 0 lands on pile `t`, so the last
card of round 0 is card 6, placed into pile 6 at depth 0.  Iterating
`deal_one` on the canonical fresh game leaves that card *face down*,
refuting the claim (the code marks the *first* card of each round face up
instead). -/
theorem C3_counterexample :
    ((deal_one_loop 28 freshGame).map fun p =>
        ((p.tableau.getD 6 []).getD 0 default).face_up) = some false ∧
      (∀ t, t < 7 → (dealPos t).1 = t) ∧ roundStart 0 = 0 ∧ roundStart 1 = 7 := by
  decide

/-- **C3, amended**: during dealing (`deal_one` iterated from a fresh
`InitialGameState` with a 52-card face-down stock, where round `r` deals
one card into each of tableau piles `r..6` left to right), the card dealt
*first* in each round — the card placed into the *lowest*-indexed pile
touched that round, pile `r` — is marked face up, and every other card
dealt is face down.  Stated on the final dealt state (face flags set during
dealing are never changed by later deals): round `r`'s card at offset `t`
lands on pile `r + t`, its offset-0 card is the top of pile `r` and is face
up, and its cards at offsets `t > 0` (sitting at depth `r` of pile `r + t`)
are face down. -/
theorem C3_amended (s : InitialGameState)
    (htab : s.tableau = List.replicate 7 []) (hlen : s.stock.length = 52)
    (hfd : ∀ c ∈ s.stock, c.face_up = false) :
    ∃ p, deal_one_loop 28 s = some p ∧
      ∀ r, r < 7 →
        (∀ t, t < 7 - r → (dealPos (roundStart r + t)).1 = r + t) ∧
        (∃ c, (p.tableau.getD r []).getLast? = some c ∧ c.face_up = true) ∧
        (∀ t, 0 < t → t < 7 - r →
          ((p.tableau.getD (r + t) []).getD r default).face_up = false) := by
  refine ⟨_, deal_one_iter_fresh s htab hlen, ?_⟩
  intro r hr
  refine ⟨fun t ht => (dealPos_round r hr t ht).1, ?_, ?_⟩
  · dsimp only
    rw [tabSpec_getD _ _ hr]
    obtain ⟨cs, c, hsplit, hface, _⟩ := pileSpec_split s.stock hlen hfd hr
    exact ⟨c, by rw [hsplit, List.getLast?_concat], hface⟩
  · intro t ht0 ht
    have hj : r + t < 7 := by omega
    dsimp only
    rw [tabSpec_getD _ _ hj]
    unfold pileSpec
    have hfl := filter_getElem (r + t) hj r (by omega)
    rw [show r + t - r = t from by omega] at hfl
    rw [List.getD_eq_getElem?_getD, List.getElem?_map, hfl]
    have hflag : (dealPos (roundStart r + t)).2 = false := by
      rw [(dealPos_round r hr t ht).2]
      simp
      omega
    exact stamp_face_down s.stock hlen hfd (roundStart_add_lt r hr t ht) hflag

/-- Witness for the amended C3 at the canonical fresh game. -/
theorem C3_amended_witness :
    ∃ p, deal_one_loop 28 freshGame = some p ∧
      ∀ r, r < 7 →
        (∀ t, t < 7 - r → (dealPos (roundStart r + t)).1 = r + t) ∧
        (∃ c, (p.tableau.getD r []).getLast? = some c ∧ c.face_up = true) ∧
        (∀ t, 0 < t → t < 7 - r →
          ((p.tableau.getD (r + t) []).getD r default).face_up = false) :=
  C3_amended freshGame rfl (by decide) (by decide)

/-- **C4**: for every fresh `InitialGameState` with a 52-card (face-down)
stock, the `PlayingGameState` produced by `deal_all` satisfies: the total
number of cards in the seven tableau piles plus the stock is 52, tableau
pile `i` has exactly `i + 1` cards, and within each tableau pile exactly
the top (last) card is face up while all cards below it are face down. -/
theorem C4_deal_shape (s : InitialGameState)
    (htab : s.tableau = List.replicate 7 []) (hlen : s.stock.length = 52)
    (hfd : ∀ c ∈ s.stock, c.face_up = false) :
    ∃ p, deal_all s = some p ∧
      (p.tableau.map List.length).sum + p.stock.length = 52 ∧
      (∀ i, i < 7 → (p.tableau.getD i []).length = i + 1) ∧
      (∀ i, i < 7 → ∃ cs c, p.tableau.getD i [] = cs ++ [c] ∧
        c.face_up = true ∧ ∀ x ∈ cs, x.face_up = false) := by
  refine ⟨_, deal_all_fresh s htab hlen, ?_, ?_, ?_⟩
  · dsimp only
    rw [tabSpec_total, List.length_take]
    omega
  · intro i hi
    dsimp only
    rw [tabSpec_getD _ _ hi]
    exact pileSpec_28_len _ hi
  · intro i hi
    dsimp only
    rw [tabSpec_getD _ _ hi]
    exact pileSpec_split s.stock hlen hfd hi

/-- Witness for C4 at the canonical fresh game. -/
theorem C4_deal_shape_witness :
    ∃ p, deal_all freshGame = some p ∧
      (p.tableau.map List.length).sum + p.stock.length = 52 ∧
      (∀ i, i < 7 → (p.tableau.getD i []).length = i + 1) ∧
      (∀ i, i < 7 → ∃ cs c, p.tableau.getD i [] = cs ++ [c] ∧
        c.face_up = true ∧ ∀ x ∈ cs, x.face_up = false) :=
  C4_deal_shape freshGame rfl (by decide) (by decide)

/-! ## Claim C8: the foundation-safety heuristic -/

/-- The loop of `is_safe_to_move_to_foundation` returns true exactly when
no opposite-color top is below `prev_rank` and the accumulator plus the
number of opposite-color matches is two. -/
theorem oppositeMatches_spec (card_to_move : Card) (prev_rank : Rank) :
    ∀ (fs : List Pile) (acc : Nat),
      oppositeMatches card_to_move prev_rank fs acc = true →
        (∀ f ∈ fs, ∀ t, f.getLast? = some t →
          t.suit.color = card_to_move.suit.color.opposite →
          rankLe t.rank prev_rank = true) ∧
        acc + fs.countP (oppTopMatch card_to_move prev_rank) = 2 := by
  intro fs
  induction fs with
  | nil =>
    intro acc h
    rw [oppositeMatches] at h
    refine ⟨by intro f hf; simp at hf, ?_⟩
    rw [List.countP_nil]
    have : acc = 2 := by simpa using h
    omega
  | cons f fs ih =>
    intro acc h
    rw [oppositeMatches] at h
    match hlast : f.getLast? with
    | none =>
      rw [hlast] at h
      obtain ⟨hall, hcount⟩ := ih acc h
      refine ⟨?_, ?_⟩
      · intro g hg t ht hc
        rcases List.mem_cons.mp hg with rfl | hg'
        · rw [hlast] at ht
          exact absurd ht (by simp)
        · exact hall g hg' t ht hc
      · have hp : oppTopMatch card_to_move prev_rank f = false := by
          unfold oppTopMatch
          rw [hlast]
        rw [List.countP_cons_of_neg _ _ (by rw [hp]; simp)]
        exact hcount
    | some t =>
      rw [hlast] at h
      dsimp only at h
      by_cases hopp : (t.suit.color == card_to_move.suit.color.opposite) = true
      · rw [if_pos hopp] at h
        by_cases hrank : rankLe t.rank prev_rank = true
        · rw [if_pos hrank] at h
          obtain ⟨hall, hcount⟩ := ih (acc + 1) h
          refine ⟨?_, ?_⟩
          · intro g hg t' ht' hc
            rcases List.mem_cons.mp hg with rfl | hg'
            · rw [hlast] at ht'
              injection ht' with ht'
              subst ht'
              exact hrank
            · exact hall g hg' t' ht' hc
          · have hp : oppTopMatch card_to_move prev_rank f = true := by
              unfold oppTopMatch
              rw [hlast]
              dsimp only
              rw [hopp, hrank]
              rfl
            rw [List.countP_cons_of_pos _ _ hp]
            omega
        · rw [if_neg hrank] at h
          exact absurd h (by simp)
      · rw [if_neg hopp] at h
        obtain ⟨hall, hcount⟩ := ih acc h
        have hopp' : (t.suit.color == card_to_move.suit.color.opposite) = false := by
          cases hb : (t.suit.color == card_to_move.suit.color.opposite)
          · rfl
          · exact absurd hb hopp
        refine ⟨?_, ?_⟩
        · intro g hg t' ht' hc
          rcases List.mem_cons.mp hg with rfl | hg'
          · rw [hlast] at ht'
            injection ht' with ht'
            subst ht'
            exact absurd (by simpa using hc) hopp
          · exact hall g hg' t' ht' hc
        · have hp : oppTopMatch card_to_move prev_rank f = false := by
            unfold oppTopMatch
            rw [hlast]
            dsimp only
            rw [hopp']
            rfl
          rw [List.countP_cons_of_neg _ _ (by rw [hp]; simp)]
          exact hcount

/-- Converting the find-predicate of `is_safe_to_move_to_foundation` to a
propositional form. -/
theorem safe_find_iff (c : Card) (pred : Rank) (f : Pile) :
    ((match f.getLast? with
      | some t => t.suit == c.suit && t.rank == pred
      | none => false) = true) ↔
      ∃ t, f.getLast? = some t ∧ t.suit = c.suit ∧ t.rank = pred := by
  match hf : f.getLast? with
  | none => simp
  | some t => simp [Bool.and_eq_true]

/-- **C8, counterexample**: the claim says a Two is safe once its suit's
foundation is empty.  With every foundation empty, the code returns false
for the Two of Clubs (it requires a foundation topped by the same-suit Ace
before a Two may be auto-moved). -/
theorem C8_counterexample :
    is_safe_to_move_to_foundation ⟨.clubs, .two, true⟩ [[], [], [], []] = false := by
  decide

/-- **C8, amended**: for every card and every array of four foundation
piles, `is_safe_to_move_to_foundation` returns true for an Ace always;
returns true for a Two exactly when some foundation's top card is the Ace
of the card's suit; and for any higher rank returns true only when a
foundation exists whose top is the card's suit at the card's predecessor
rank and both opposite-color foundations have tops of rank at least the
card's predecessor rank (exactly two such opposite-color foundation
matches required). -/
theorem C8_amended (c : Card) (fs : List Pile) (hlen : fs.length = 4) :
    (c.rank = .ace → is_safe_to_move_to_foundation c fs = true) ∧
    (c.rank = .two →
      (is_safe_to_move_to_foundation c fs = true ↔
        ∃ f ∈ fs, ∃ t, f.getLast? = some t ∧ t.suit = c.suit ∧ t.rank = .ace)) ∧
    (∀ pred, c.rank.next = some pred → c.rank ≠ .two →
      is_safe_to_move_to_foundation c fs = true →
      ((∃ f ∈ fs, ∃ t, f.getLast? = some t ∧ t.suit = c.suit ∧ t.rank = pred) ∧
       (∀ f ∈ fs, ∀ t, f.getLast? = some t →
         t.suit.color = c.suit.color.opposite → rankLe t.rank pred = true) ∧
       fs.countP (oppTopMatch c pred) = 2)) := by
  refine ⟨?_, ?_, ?_⟩
  · intro hr
    unfold is_safe_to_move_to_foundation
    rw [hr]
    rfl
  · intro hr
    unfold is_safe_to_move_to_foundation
    rw [hr, show Rank.two.next = some Rank.ace from rfl]
    dsimp only
    rw [if_pos (show (Rank.two == Rank.two) = true from rfl)]
    by_cases hany : (fs.any fun f =>
        match f.getLast? with
        | some t => t.suit == c.suit && t.rank == Rank.ace
        | none => false) = true
    · rw [if_pos hany]
      constructor
      · intro _
        obtain ⟨f, hf, hp⟩ := List.any_eq_true.mp hany
        exact ⟨f, hf, (safe_find_iff c .ace f).mp hp⟩
      · intro _
        rfl
    · rw [if_neg hany]
      constructor
      · intro hfalse
        exact absurd hfalse (by simp)
      · intro ⟨f, hf, hex⟩
        exact absurd (List.any_eq_true.mpr ⟨f, hf, (safe_find_iff c .ace f).mpr hex⟩)
          hany
  · intro pred hnext htwo hsafe
    unfold is_safe_to_move_to_foundation at hsafe
    rw [hnext] at hsafe
    dsimp only at hsafe
    by_cases hany : (fs.any fun f =>
        match f.getLast? with
        | some t => t.suit == c.suit && t.rank == pred
        | none => false) = true
    · rw [if_pos hany] at hsafe
      have h2 : (c.rank == Rank.two) = false := by
        cases hb : (c.rank == Rank.two)
        · rfl
        · exact absurd (by simpa using hb) htwo
      rw [if_neg (by rw [h2]; simp)] at hsafe
      obtain ⟨hall, hcount⟩ := oppositeMatches_spec c pred fs 0 hsafe
      obtain ⟨f, hf, hp⟩ := List.any_eq_true.mp hany
      exact ⟨⟨f, hf, (safe_find_iff c pred f).mp hp⟩, hall, by simpa using hcount⟩
    · rw [if_neg hany] at hsafe
      exact absurd hsafe (by simp)

/-- Witness for the amended C8: the Two of Clubs with its Ace on the first
foundation. -/
theorem C8_amended_witness :
    is_safe_to_move_to_foundation ⟨.clubs, .two, true⟩
        [[⟨.clubs, .ace, true⟩], [], [], []] = true ↔
      ∃ f ∈ [([⟨.clubs, .ace, true⟩] : Pile), [], [], []], ∃ t,
        f.getLast? = some t ∧ t.suit = FrenchSuit.clubs ∧ t.rank = .ace :=
  (C8_amended ⟨.clubs, .two, true⟩ [[⟨.clubs, .ace, true⟩], [], [], []]
    (by decide)).2.1 rfl

end Solitaire
